import Mathlib

/-
Verification of the NativeDecimalFormat JNI layer
(luni/src/main/native/libcore_icu_NativeDecimalFormat.cpp) together with a
model of the decimal format engine it drives.  Text is represented as lists
of UTF-16 code units (natural numbers); jchar arguments are natural numbers
below 2 ^ 16.
-/

set_option maxHeartbeats 1000000

deriving instance DecidableEq for Except

/-- The identifiers of `DecimalFormatSymbols` that the JNI layer writes in
`makeDecimalFormatSymbols` (lines 65-92 of the C++ file).  Symbols that the
code does not touch are omitted. -/
inductive DecimalFormatSymbol where
  | kCurrencySymbol
  | kDecimalSeparatorSymbol
  | kDigitSymbol
  | kExponentialSymbol
  | kGroupingSeparatorSymbol
  | kMonetaryGroupingSeparatorSymbol
  | kInfinitySymbol
  | kIntlCurrencySymbol
  | kMinusSignSymbol
  | kMonetarySeparatorSymbol
  | kNaNSymbol
  | kPatternSeparatorSymbol
  | kPercentSymbol
  | kPerMillSymbol
  | kZeroDigitSymbol
  | kOneDigitSymbol
  | kTwoDigitSymbol
  | kThreeDigitSymbol
  | kFourDigitSymbol
  | kFiveDigitSymbol
  | kSixDigitSymbol
  | kSevenDigitSymbol
  | kEightDigitSymbol
  | kNineDigitSymbol
deriving DecidableEq

/-- The argument list of `makeDecimalFormatSymbols`: jstring parameters are
lists of UTF-16 code units, jchar parameters are single code units. -/
structure SymbolArgs where
  currencySymbol : List Nat
  decimalSeparator : Nat
  digit : Nat
  exponentSeparator : List Nat
  groupingSeparator : Nat
  infinity : List Nat
  internationalCurrencySymbol : List Nat
  minusSign : List Nat
  monetaryDecimalSeparator : Nat
  nan : List Nat
  patternSeparator : Nat
  percent : List Nat
  perMill : Nat
  zeroDigit : Nat
deriving DecidableEq

/-- The UTF-16 encoding of one code point, as `UnicodeString(UChar32)`
stores it: a single unit below 0x10000, a surrogate pair beyond. -/
def utf16Encode (v : Nat) : List Nat :=
  if v < 65536 then [v]
  else [55296 + (v - 65536) / 1024, 56320 + (v - 65536) % 1024]

/-- The code points denoted by a list of UTF-16 code units: a high
surrogate followed by a low surrogate combines into one supplementary code
point, any other unit (including a lone surrogate) stands for itself. -/
def codePointsOfUtf16 : List Nat → List Nat
  | [] => []
  | [c] => [c]
  | c :: c2 :: rest =>
    if 55296 ≤ c ∧ c < 56320 ∧ 56320 ≤ c2 ∧ c2 < 57344 then
      (65536 + (c - 55296) * 1024 + (c2 - 56320)) :: codePointsOfUtf16 rest
    else c :: codePointsOfUtf16 (c2 :: rest)

/-- `makeDecimalFormatSymbols` (C++ lines 50-93).  Each `setSymbol` call of
the source is one arm.  The grouping separator jchar is widened to a
one-unit string and stored for both the ordinary and the monetary grouping
separator (lines 70-71).  The ten digit symbols are built from the zero
digit by the int additions `zeroDigit + 0` .. `zeroDigit + 9` of lines
82-91; the int argument selects the `UnicodeString(UChar32)` code-point
constructor (an exact match, preferred over the narrowing `UChar`
overload), so each stored glyph is the full code point `zeroDigit + d` in
its UTF-16 encoding — a surrogate pair when the sum exceeds 0xFFFF. -/
def makeDecimalFormatSymbols (a : SymbolArgs) : DecimalFormatSymbol → List Nat
  | .kCurrencySymbol => a.currencySymbol
  | .kDecimalSeparatorSymbol => [a.decimalSeparator]
  | .kDigitSymbol => [a.digit]
  | .kExponentialSymbol => a.exponentSeparator
  | .kGroupingSeparatorSymbol => [a.groupingSeparator]
  | .kMonetaryGroupingSeparatorSymbol => [a.groupingSeparator]
  | .kInfinitySymbol => a.infinity
  | .kIntlCurrencySymbol => a.internationalCurrencySymbol
  | .kMinusSignSymbol => a.minusSign
  | .kMonetarySeparatorSymbol => [a.monetaryDecimalSeparator]
  | .kNaNSymbol => a.nan
  | .kPatternSeparatorSymbol => [a.patternSeparator]
  | .kPercentSymbol => a.percent
  | .kPerMillSymbol => [a.perMill]
  | .kZeroDigitSymbol => utf16Encode (a.zeroDigit + 0)
  | .kOneDigitSymbol => utf16Encode (a.zeroDigit + 1)
  | .kTwoDigitSymbol => utf16Encode (a.zeroDigit + 2)
  | .kThreeDigitSymbol => utf16Encode (a.zeroDigit + 3)
  | .kFourDigitSymbol => utf16Encode (a.zeroDigit + 4)
  | .kFiveDigitSymbol => utf16Encode (a.zeroDigit + 5)
  | .kSixDigitSymbol => utf16Encode (a.zeroDigit + 6)
  | .kSevenDigitSymbol => utf16Encode (a.zeroDigit + 7)
  | .kEightDigitSymbol => utf16Encode (a.zeroDigit + 8)
  | .kNineDigitSymbol => utf16Encode (a.zeroDigit + 9)

/-- The symbol identifier holding the glyph of decimal digit `d`. -/
def digitSymbolOf : Fin 10 → DecimalFormatSymbol
  | 0 => .kZeroDigitSymbol
  | 1 => .kOneDigitSymbol
  | 2 => .kTwoDigitSymbol
  | 3 => .kThreeDigitSymbol
  | 4 => .kFourDigitSymbol
  | 5 => .kFiveDigitSymbol
  | 6 => .kSixDigitSymbol
  | 7 => .kSevenDigitSymbol
  | 8 => .kEightDigitSymbol
  | 9 => .kNineDigitSymbol

/-- Symbol arguments mirroring the standard ASCII/Latin symbol set
(zero digit `0`, decimal point `.`, grouping comma, minus `-`, NaN text
`"NaN"`, infinity sign U+221E). -/
def asciiArgs : SymbolArgs :=
  { currencySymbol := [36]
    decimalSeparator := 46
    digit := 35
    exponentSeparator := [69]
    groupingSeparator := 44
    infinity := [8734]
    internationalCurrencySymbol := [85, 83, 68]
    minusSign := [45]
    monetaryDecimalSeparator := 46
    nan := [78, 97, 78]
    patternSeparator := 59
    percent := [37]
    perMill := 8240
    zeroDigit := 48 }

/-- The symbol table produced by `makeDecimalFormatSymbols` on the ASCII
argument set. -/
def asciiSymbols : DecimalFormatSymbol → List Nat :=
  makeDecimalFormatSymbols asciiArgs

/-- An exact decimal value `mantissa / 10 ^ scale` (spec glossary: "Exact
decimal: a digit-string numeric representation avoiding binary
floating-point rounding error").  Every finite double has such a
representation. -/
structure Decimal where
  mantissa : Int
  scale : Nat
deriving DecidableEq

/-- A double value as ICU's `Formattable` can hold it: NaN, an infinity, or
a finite value, the latter kept as the exact decimal the double denotes. -/
inductive ICUDouble where
  | nan
  | posInf
  | negInf
  | finite (v : Decimal)
deriving DecidableEq

/-- The result variants a `Formattable` filled in by `DecimalFormat::parse`
can carry: `kDouble`, `kLong` or `kInt64` (the cases the switch at C++
lines 350-355 reads). -/
inductive Formattable where
  | kDouble (v : ICUDouble)
  | kLong (v : Int)
  | kInt64 (v : Int)
deriving DecidableEq

/-- `Formattable::getDouble`: a long or int64 payload is converted to a
double. -/
def Formattable.getDouble : Formattable → ICUDouble
  | .kDouble v => v
  | .kLong n => .finite ⟨n, 0⟩
  | .kInt64 n => .finite ⟨n, 0⟩

/-- The observable effect of `DecimalFormat::parse` on its `ParsePosition`:
either success (error index stays -1, the index is advanced to one past the
last consumed character, and the `Formattable` holds a numeric result whose
exact decimal text `Formattable::getDecimalNumber` returns), or failure (the
error index is set to the offending offset).  `DecimalFormat::parse` always
fills the `Formattable` with one of the three numeric variants and its
decimal text is always available on success. -/
inductive EngineOutcome where
  | success (res : Formattable) (decimalNumber : List Nat) (endIndex : Nat)
  | failure (errorIndex : Nat)
deriving DecidableEq

/-- `java.text.ParsePosition`: a current index and an error index. -/
structure ParsePosition where
  index : Int
  errorIndex : Int
deriving DecidableEq

/-- The `java.lang.Number` objects `NativeDecimalFormat_parse` can return:
a `Double` (via `doubleValueOf`), a `Long` (via `longValueOf`), or a
`BigDecimal` built from a decimal digit string (via `newBigDecimal`). -/
inductive JavaNumber where
  | doubleObj (v : ICUDouble)
  | longObj (v : Int)
  | bigDecimalObj (digits : List Nat)
deriving DecidableEq

/-- Code units of `"NaN"`. -/
def nanChars : List Nat := [78, 97, 78]

/-- Code units of `"Inf"`. -/
def infChars : List Nat := [73, 110, 102]

/-- Code units of `"-Inf"`. -/
def negInfChars : List Nat := [45, 73, 110, 102]

/-- The special-value test of C++ lines 339-341: the decimal number text
starts with `"NaN"`, `"Inf"` or `"-Inf"` (the three `strncmp` calls). -/
def isSpecialDecimal (ds : List Nat) : Bool :=
  nanChars.isPrefixOf ds || infChars.isPrefixOf ds || negInfChars.isPrefixOf ds

/-- `NativeDecimalFormat_parse` (C++ lines 301-356).  `fmt` is the engine
behind the `DecimalFormat*` handle, applied to the text and the starting
offset.  The function first rejects an out-of-range `ParsePosition` index
(lines 316-319) returning null with the position untouched; then it runs the
engine, and either sets the error index and returns null, or sets the index
to the end offset (lines 326-331) and converts the result: with
`parseBigDecimal`, a decimal text starting like NaN or an infinity becomes a
`Double` and anything else a `BigDecimal` (lines 333-348); otherwise the
`Formattable` variant picks `Double` or `Long` (lines 350-355).  A parse
failure is a normal return, no exception path exists here. -/
def NativeDecimalFormat_parse (fmt : List Nat → Nat → EngineOutcome) (text : List Nat)
    (position : ParsePosition) (parseBigDecimal : Bool) :
    Option JavaNumber × ParsePosition :=
  let parsePos := position.index
  if parsePos < 0 ∨ parsePos > (text.length : Int) then (none, position)
  else
    match fmt text parsePos.toNat with
    | .failure e => (none, { position with errorIndex := (e : Int) })
    | .success res ds endIdx =>
      let pos2 : ParsePosition := { position with index := (endIdx : Int) }
      if parseBigDecimal then
        if isSpecialDecimal ds then (some (.doubleObj res.getDouble), pos2)
        else (some (.bigDecimalObj ds), pos2)
      else
        match res with
        | .kDouble v => (some (.doubleObj v), pos2)
        | .kLong v => (some (.longObj v), pos2)
        | .kInt64 v => (some (.longObj v), pos2)

/-- Modelled from the spec: an element of a stored affix (prefix or suffix)
literal of the PatternCompiler rule set.  A literal character appears
verbatim in output; the percent, per-mille and currency markers are
replaced by their symbol values when formatting.  The engine holding this
is ICU's DecimalFormat pattern machinery, which the repository only calls. -/
inductive AffixToken where
  | literal (c : Nat)
  | percent
  | perMille
  | currency
deriving DecidableEq

/-- Modelled from the spec: the structural rule set `PatternRules` of the
data model (spec section 3).  The affix fields `posPre`, `posSuf`, `negPre`,
`negSuf` are the spec's positive/negative affix literals.
`maxIntegerDigits` is `none` when the pattern leaves the integer digit
count unbounded.  A `secondaryGroupingSize` of zero means no secondary
grouping. -/
structure PatternRules where
  minIntegerDigits : Nat
  maxIntegerDigits : Option Nat
  minFractionDigits : Nat
  maxFractionDigits : Nat
  groupingSize : Nat
  secondaryGroupingSize : Nat
  useGrouping : Bool
  posPre : List AffixToken
  posSuf : List AffixToken
  negPre : List AffixToken
  negSuf : List AffixToken
  multiplier : Nat
  roundingIncrement : Decimal
deriving DecidableEq

/-- Modelled from the spec: the glyph set the PatternCompiler tokenizes
with.  With `localized = false` these are the canonical ASCII pattern
characters; with `localized = true` they are the instance's current symbol
glyphs (spec section 4.2).  The quoting character is always the ASCII
apostrophe, code 39. -/
structure PatternGlyphs where
  zeroDigit : Nat
  digit : Nat
  decimalSep : Nat
  groupingSep : Nat
  patternSep : Nat
  percent : Nat
  perMill : Nat
  currency : Nat
deriving DecidableEq

/-- The canonical ASCII pattern glyphs `0 # . , ; %` then per-mille U+2030
and the currency sign U+00A4. -/
def canonicalGlyphs : PatternGlyphs :=
  { zeroDigit := 48, digit := 35, decimalSep := 46, groupingSep := 44
    patternSep := 59, percent := 37, perMill := 8240, currency := 164 }

/-- A usable glyph set: the eight special glyphs are pairwise distinct and
none of them is the quoting apostrophe (code 39). -/
def GlyphsDistinct (g : PatternGlyphs) : Prop :=
  g.zeroDigit ∉ [g.digit, g.decimalSep, g.groupingSep, g.patternSep, g.percent,
    g.perMill, g.currency, 39] ∧
  g.digit ∉ [g.decimalSep, g.groupingSep, g.patternSep, g.percent, g.perMill,
    g.currency, 39] ∧
  g.decimalSep ∉ [g.groupingSep, g.patternSep, g.percent, g.perMill, g.currency, 39] ∧
  g.groupingSep ∉ [g.patternSep, g.percent, g.perMill, g.currency, 39] ∧
  g.patternSep ∉ [g.percent, g.perMill, g.currency, 39] ∧
  g.percent ∉ [g.perMill, g.currency, 39] ∧
  g.perMill ∉ [g.currency, 39] ∧
  g.currency ≠ 39

instance (g : PatternGlyphs) : Decidable (GlyphsDistinct g) := by
  unfold GlyphsDistinct; infer_instance

/-- Modelled from the spec: the reasons pattern compilation can fail with
PatternSyntaxError (spec sections 4.2 and 7: unbalanced quotes, malformed
grouping, a subpattern without digits, more than two subpatterns, text
where none is allowed).  The spec also attaches an offset to the error;
the offset is not tracked here. -/
inductive PatternSyntaxError where
  | unbalancedQuote
  | badGrouping
  | missingDigits
  | tooManySubpatterns
  | trailingGarbage
deriving DecidableEq

/-- Characters that terminate an affix literal scan: digit placeholders,
the grouping and decimal separators, and the pattern separator. -/
def isAffixStopChar (g : PatternGlyphs) (c : Nat) : Bool :=
  c == g.zeroDigit || c == g.digit || c == g.groupingSep ||
    c == g.decimalSep || c == g.patternSep

/-- Characters belonging to the integer digit/grouping run. -/
def isRunChar (g : PatternGlyphs) (c : Nat) : Bool :=
  c == g.zeroDigit || c == g.digit || c == g.groupingSep

/-- Characters belonging to the fraction digit run. -/
def isFracChar (g : PatternGlyphs) (c : Nat) : Bool :=
  c == g.zeroDigit || c == g.digit

/-- Prepend an affix token to the token list of a scan result. -/
def consTok (t : AffixToken) :
    Except PatternSyntaxError (List AffixToken × List Nat) →
    Except PatternSyntaxError (List AffixToken × List Nat)
  | .ok (ts, r) => .ok (t :: ts, r)
  | .error e => .error e

/-- Modelled from the spec: the affix scanner of the PatternCompiler (spec
section 4.2).  It reads literal text, treating single-quote pairs as
verbatim literals with a doubled quote denoting one literal quote
character, recognizes the percent / per-mille / currency markers, and stops
in front of the digit part or the pattern separator.  The boolean state is
true while inside a quote pair; an unterminated quote is a syntax error. -/
def scanAffix (g : PatternGlyphs) : Bool → List Nat →
    Except PatternSyntaxError (List AffixToken × List Nat)
  | false, [] => .ok ([], [])
  | false, [c] =>
    if c = 39 then .error .unbalancedQuote
    else if isAffixStopChar g c then .ok ([], [c])
    else if c = g.percent then consTok .percent (.ok ([], []))
    else if c = g.perMill then consTok .perMille (.ok ([], []))
    else if c = g.currency then consTok .currency (.ok ([], []))
    else consTok (.literal c) (.ok ([], []))
  | false, c :: c2 :: cs2 =>
    if c = 39 then
      if c2 = 39 then consTok (.literal 39) (scanAffix g false cs2)
      else scanAffix g true (c2 :: cs2)
    else if isAffixStopChar g c then .ok ([], c :: c2 :: cs2)
    else if c = g.percent then consTok .percent (scanAffix g false (c2 :: cs2))
    else if c = g.perMill then consTok .perMille (scanAffix g false (c2 :: cs2))
    else if c = g.currency then consTok .currency (scanAffix g false (c2 :: cs2))
    else consTok (.literal c) (scanAffix g false (c2 :: cs2))
  | true, [] => .error .unbalancedQuote
  | true, [c] =>
    if c = 39 then .ok ([], [])
    else .error .unbalancedQuote
  | true, c :: c2 :: cs2 =>
    if c = 39 then
      if c2 = 39 then consTok (.literal 39) (scanAffix g true cs2)
      else scanAffix g false (c2 :: cs2)
    else consTok (.literal c) (scanAffix g true (c2 :: cs2))

/-- Split a list at every occurrence of `sep`; the separators themselves
are dropped and the (possibly empty) segments between them are returned. -/
def splitSeg (sep : Nat) : List Nat → List (List Nat)
  | [] => [[]]
  | c :: cs =>
    match splitSeg sep cs with
    | [] => [[]]
    | s :: rs => if c = sep then [] :: s :: rs else (c :: s) :: rs

/-- Modelled from the spec: analysis of the integer digit/grouping run of a
subpattern (spec section 4.2).  It returns the minimum integer digit count
(the number of `0` glyphs), the grouping size (the distance from the
rightmost grouping separator to the end), the secondary grouping size (the
next gap, when a second separator exists) and whether grouping is used.  An
empty run or an empty segment next to a separator is a syntax error. -/
def processIntRun (g : PatternGlyphs) (run : List Nat) :
    Except PatternSyntaxError (Nat × Nat × Nat × Bool) :=
  if run.isEmpty then .error .missingDigits
  else
    let segs := splitSeg g.groupingSep run
    if segs.any (·.isEmpty) then .error .badGrouping
    else
      match segs.reverse with
      | [] => .error .missingDigits
      | [_] => .ok (run.count g.zeroDigit, 0, 0, false)
      | lastSeg :: secondSeg :: others =>
        .ok (run.count g.zeroDigit, lastSeg.length,
             if others.isEmpty then 0 else secondSeg.length, true)

/-- Modelled from the spec: the fraction scanner.  When the text starts
with the decimal separator, the run of digit glyphs after it yields the
minimum fraction digit count (number of `0` glyphs) and the maximum
fraction digit count (length of the run); otherwise both are zero. -/
def scanFraction (g : PatternGlyphs) (l : List Nat) : Nat × Nat × List Nat :=
  match l with
  | [] => (0, 0, [])
  | c :: cs =>
    if c = g.decimalSep then
      (((cs.takeWhile (isFracChar g)).count g.zeroDigit),
        (cs.takeWhile (isFracChar g)).length,
        cs.dropWhile (isFracChar g))
    else (0, 0, c :: cs)

/-- The pieces of one parsed subpattern. -/
structure SubpatInfo where
  pre : List AffixToken
  suf : List AffixToken
  minInt : Nat
  gsz : Nat
  ssz : Nat
  useG : Bool
  minFrac : Nat
  maxFrac : Nat
deriving DecidableEq

/-- Modelled from the spec: parsing one subpattern (spec section 4.2):
prefix literal, digit/grouping run, optional decimal point and fraction
run, then suffix literal.  The remaining text (empty, or beginning with
the pattern separator) is returned alongside. -/
def parseSubpattern (g : PatternGlyphs) (text : List Nat) :
    Except PatternSyntaxError (SubpatInfo × List Nat) :=
  match scanAffix g false text with
  | .error e => .error e
  | .ok (pre, r1) =>
    match processIntRun g (r1.takeWhile (isRunChar g)) with
    | .error e => .error e
    | .ok (z, gsz, ssz, useG) =>
      match scanFraction g (r1.dropWhile (isRunChar g)) with
      | (fz, fl, r3) =>
        match scanAffix g false r3 with
        | .error e => .error e
        | .ok (suf, r4) => .ok (⟨pre, suf, z, gsz, ssz, useG, fz, fl⟩, r4)

/-- True when the token is the per-mille marker. -/
def isPerMilleTok : AffixToken → Bool
  | .perMille => true
  | _ => false

/-- True when the token is the percent marker. -/
def isPercentTok : AffixToken → Bool
  | .percent => true
  | _ => false

/-- Modelled from the spec: the multiplier implied by the affix markers of
the positive subpattern, per-mille giving 1000 and percent giving 100
(spec section 4.2). -/
def derivedMultiplier (pre suf : List AffixToken) : Nat :=
  if (pre ++ suf).any isPerMilleTok then 1000
  else if (pre ++ suf).any isPercentTok then 100
  else 1

/-- Modelled from the spec: `compile(patternText, localized) ->
PatternRules` of the PatternCompiler, the engine behind
`DecimalFormat::applyPattern` / `applyLocalizedPattern`, which the
repository only calls through `NativeDecimalFormat_applyPatternImpl`.  The
text is split at the pattern separator into at most two subpatterns; the
digit statistics come from the positive subpattern, and the negative
subpattern (explicit, or defaulting to a minus sign followed by the
positive pattern) contributes its affixes.  The glyph set `g` decides the
localized/canonical tokenization.  A compiled rule set has an unbounded
`maxIntegerDigits` and a zero `roundingIncrement`, neither being
expressible in a pattern here. -/
def compile (g : PatternGlyphs) (text : List Nat) :
    Except PatternSyntaxError PatternRules :=
  match parseSubpattern g text with
  | .error e => .error e
  | .ok (p, rest) =>
    let base : PatternRules :=
      { minIntegerDigits := p.minInt
        maxIntegerDigits := none
        minFractionDigits := p.minFrac
        maxFractionDigits := p.maxFrac
        groupingSize := p.gsz
        secondaryGroupingSize := p.ssz
        useGrouping := p.useG
        posPre := p.pre
        posSuf := p.suf
        negPre := .literal 45 :: p.pre
        negSuf := p.suf
        multiplier := derivedMultiplier p.pre p.suf
        roundingIncrement := ⟨0, 0⟩ }
    match rest with
    | [] => .ok base
    | c :: rest2 =>
      if c = g.patternSep then
        match parseSubpattern g rest2 with
        | .error e => .error e
        | .ok (p2, rest3) =>
          if rest3.isEmpty then .ok { base with negPre := p2.pre, negSuf := p2.suf }
          else .error .tooManySubpatterns
      else .error .trailingGarbage

/-- Modelled from the spec: the affix printer of `decompile`.  Literal
runs are emitted inside single-quote pairs so they are taken verbatim, a
literal quote character is emitted as a doubled quote, and the markers are
emitted as their bare glyphs.  The boolean state is true while a quote pair
is open. -/
def printAffixAux (g : PatternGlyphs) : Bool → List AffixToken → List Nat
  | false, [] => []
  | false, .percent :: ts => g.percent :: printAffixAux g false ts
  | false, .perMille :: ts => g.perMill :: printAffixAux g false ts
  | false, .currency :: ts => g.currency :: printAffixAux g false ts
  | false, .literal c :: ts =>
    if c = 39 then 39 :: 39 :: printAffixAux g false ts
    else 39 :: c :: printAffixAux g true ts
  | true, .literal c :: ts =>
    if c = 39 then 39 :: 39 :: printAffixAux g true ts
    else c :: printAffixAux g true ts
  | true, [] => [39]
  | true, .percent :: ts => 39 :: g.percent :: printAffixAux g false ts
  | true, .perMille :: ts => 39 :: g.perMill :: printAffixAux g false ts
  | true, .currency :: ts => 39 :: g.currency :: printAffixAux g false ts

/-- A digit placeholder run of length `total` whose rightmost `z`
positions are `0` glyphs and the rest `#` glyphs. -/
def mkRun (g : PatternGlyphs) (z total : Nat) : List Nat :=
  List.replicate (total - z) g.digit ++ List.replicate z g.zeroDigit

/-- Modelled from the spec: the canonical integer digit/grouping run
emitted by `decompile`: without grouping just the minimum digit count (or
a lone `#`), with grouping one separator placed `groupingSize` positions
from the right (and a second one `secondaryGroupingSize` further when a
secondary size is set), `0` glyphs filling the rightmost
`minIntegerDigits` positions. -/
def printIntRun (g : PatternGlyphs) (r : PatternRules) : List Nat :=
  if r.useGrouping = false then
    if r.minIntegerDigits = 0 then [g.digit]
    else List.replicate r.minIntegerDigits g.zeroDigit
  else if r.secondaryGroupingSize = 0 then
    (if r.minIntegerDigits ≤ r.groupingSize then [g.digit]
     else List.replicate (r.minIntegerDigits - r.groupingSize) g.zeroDigit) ++
      g.groupingSep :: mkRun g (min r.minIntegerDigits r.groupingSize) r.groupingSize
  else
    (if r.minIntegerDigits - r.groupingSize - r.secondaryGroupingSize = 0 then [g.digit]
     else List.replicate (r.minIntegerDigits - r.groupingSize - r.secondaryGroupingSize)
            g.zeroDigit) ++
      g.groupingSep ::
        (mkRun g (min (r.minIntegerDigits - r.groupingSize) r.secondaryGroupingSize)
            r.secondaryGroupingSize ++
          g.groupingSep :: mkRun g (min r.minIntegerDigits r.groupingSize) r.groupingSize)

/-- Modelled from the spec: the canonical fraction part emitted by
`decompile`: nothing when no fraction digits are allowed, otherwise the
decimal separator followed by `minFractionDigits` zero glyphs and
`maxFractionDigits - minFractionDigits` `#` glyphs. -/
def printFracRun (g : PatternGlyphs) (r : PatternRules) : List Nat :=
  if r.maxFractionDigits = 0 then []
  else g.decimalSep ::
    (List.replicate r.minFractionDigits g.zeroDigit ++
      List.replicate (r.maxFractionDigits - r.minFractionDigits) g.digit)

/-- One printed subpattern: affixes around the canonical digit part. -/
def printSubpattern (g : PatternGlyphs) (r : PatternRules)
    (pre suf : List AffixToken) : List Nat :=
  printAffixAux g false pre ++
    (printIntRun g r ++ (printFracRun g r ++ printAffixAux g false suf))

/-- Modelled from the spec: `decompile(rules, localized) -> patternText`,
the engine behind `DecimalFormat::toPattern` / `toLocalizedPattern`, which
the repository calls through `NativeDecimalFormat_toPatternImpl`.  The
negative subpattern is omitted when it is the default (a minus sign glued
onto the positive subpattern); otherwise it is emitted after the pattern
separator with the same digit part. -/
def decompile (g : PatternGlyphs) (r : PatternRules) : List Nat :=
  if r.negPre = .literal 45 :: r.posPre ∧ r.negSuf = r.posSuf then
    printSubpattern g r r.posPre r.posSuf
  else
    printSubpattern g r r.posPre r.posSuf ++
      g.patternSep :: printSubpattern g r r.negPre r.negSuf

/-- The rule sets in the image of `compile`: fraction bounds are ordered,
grouping sizes are zero exactly when unused, the primary grouping size is
positive when used, the multiplier agrees with the positive affix markers,
and the pattern-inexpressible fields hold their defaults. -/
def WFRules (r : PatternRules) : Prop :=
  r.maxIntegerDigits = none ∧
  r.minFractionDigits ≤ r.maxFractionDigits ∧
  (r.useGrouping = false → r.groupingSize = 0 ∧ r.secondaryGroupingSize = 0) ∧
  (r.useGrouping = true → 1 ≤ r.groupingSize) ∧
  r.multiplier = derivedMultiplier r.posPre r.posSuf ∧
  r.roundingIncrement = ⟨0, 0⟩

/-- The ICU `DecimalFormat::ERoundingMode` constants that
`NativeDecimalFormat_setRoundingMode` casts its jint onto. -/
inductive RoundingMode where
  | kRoundCeiling
  | kRoundFloor
  | kRoundDown
  | kRoundUp
  | kRoundHalfEven
  | kRoundHalfDown
  | kRoundHalfUp
deriving DecidableEq

/-- Modelled from the spec: the FormatInstance of the data model — one
symbol set, one rule set and one rounding policy behind each
`DecimalFormat*` handle. -/
structure FormatInstance where
  rules : PatternRules
  symbols : DecimalFormatSymbol → List Nat
  roundingMode : RoundingMode
  roundingIncrement : Decimal

/-- `NativeDecimalFormat_open` (C++ lines 109-132): builds the symbol set
with `makeDecimalFormatSymbols` and constructs the `DecimalFormat` from the
pattern; a pattern syntax error surfaces immediately (via
`maybeThrowIcuException`) and no instance is handed out.  The pattern is
compiled with the canonical glyphs, as the `DecimalFormat` constructor
takes a non-localized pattern.  ICU's default rounding policy is half-even
with no increment. -/
def NativeDecimalFormat_open (pattern : List Nat) (a : SymbolArgs) :
    Except PatternSyntaxError FormatInstance :=
  match compile canonicalGlyphs pattern with
  | .error e => .error e
  | .ok r =>
    .ok { rules := r, symbols := makeDecimalFormatSymbols a
          roundingMode := .kRoundHalfEven, roundingIncrement := ⟨0, 0⟩ }

/-- `NativeDecimalFormat_setDecimalFormatSymbols` (C++ lines 95-107): the
instance adopts a fresh symbol set built by `makeDecimalFormatSymbols`. -/
def NativeDecimalFormat_setDecimalFormatSymbols (inst : FormatInstance)
    (a : SymbolArgs) : FormatInstance :=
  { inst with symbols := makeDecimalFormatSymbols a }

/-- `NativeDecimalFormat_setRoundingMode` (C++ lines 138-142): stores the
rounding mode and the rounding increment on the instance. -/
def NativeDecimalFormat_setRoundingMode (inst : FormatInstance)
    (mode : RoundingMode) (increment : Decimal) : FormatInstance :=
  { inst with roundingMode := mode, roundingIncrement := increment }

/-- Modelled from the spec: rounding the rational `num / den` (with
`den > 0`) to an integer under a rounding mode (spec section 4.3): floor,
ceiling, toward zero, away from zero, and the three half modes with their
tie rules, half-even sending ties to the even neighbour. -/
def divRoundInt (mode : RoundingMode) (num den : Int) : Int :=
  let q := Int.fdiv num den
  let r := num - q * den
  if r = 0 then q
  else
    match mode with
    | .kRoundFloor => q
    | .kRoundCeiling => q + 1
    | .kRoundDown => if 0 ≤ num then q else q + 1
    | .kRoundUp => if 0 ≤ num then q + 1 else q
    | .kRoundHalfUp =>
      if den < 2 * r then q + 1
      else if 2 * r < den then q
      else if 0 ≤ num then q + 1 else q
    | .kRoundHalfDown =>
      if den < 2 * r then q + 1
      else if 2 * r < den then q
      else if 0 ≤ num then q else q + 1
    | .kRoundHalfEven =>
      if den < 2 * r then q + 1
      else if 2 * r < den then q
      else if q % 2 = 0 then q else q + 1

/-- Modelled from the spec: the RoundingEngine (spec section 4.3),
operating on exact decimal values.  With a nonzero increment the value is
divided by the increment, the quotient is rounded to an integer per mode,
and the result multiplied back; with a zero increment the value is rounded
to `k = maxFractionDigits` decimal places. -/
def roundEngine (mode : RoundingMode) (increment : Decimal) (k : Nat)
    (x : Decimal) : Decimal :=
  if increment.mantissa ≠ 0 then
    ⟨divRoundInt mode (x.mantissa * 10 ^ increment.scale)
        (increment.mantissa * 10 ^ x.scale) * increment.mantissa,
      increment.scale⟩
  else ⟨divRoundInt mode (x.mantissa * 10 ^ k) ((10 : Int) ^ x.scale), k⟩

/-- Decimal digits of `n`, least significant first, extracted with a fuel
bound; empty for zero. -/
def natDigitsRevAux : Nat → Nat → List Nat
  | 0, _ => []
  | fuel + 1, n => if n = 0 then [] else n % 10 :: natDigitsRevAux fuel (n / 10)

/-- Decimal digits of `n`, most significant first; `[0]` for zero. -/
def natDigits10 (n : Nat) : List Nat :=
  if n = 0 then [0] else (natDigitsRevAux n n).reverse

/-- Modelled from the spec: rendering an affix literal for output, the
markers replaced by their symbol values (spec section 4.4). -/
def renderAffix (sym : DecimalFormatSymbol → List Nat)
    (ts : List AffixToken) : List Nat :=
  (ts.map (fun t =>
    match t with
    | .literal c => [c]
    | .percent => sym .kPercentSymbol
    | .perMille => sym .kPerMillSymbol
    | .currency => sym .kCurrencySymbol)).flatten

/-- Cut a list into chunks of `sz` elements (the last chunk possibly
shorter), with a fuel bound; the whole list as one chunk when `sz` is
zero. -/
def chunksAux (sz : Nat) : Nat → List Nat → List (List Nat)
  | _, [] => []
  | 0, l => [l]
  | fuel + 1, c :: cs =>
    if sz = 0 then [c :: cs]
    else (c :: cs).take sz :: chunksAux sz fuel ((c :: cs).drop sz)

/-- Modelled from the spec: grouping of the integer digits from the right:
the rightmost group has `gsz` digits, the remaining groups
`ssz` digits when a secondary size is set and `gsz` otherwise (spec
section 4.4). -/
def groupDigits (gsz ssz : Nat) (ds : List Nat) : List (List Nat) :=
  let r := ds.reverse
  ((r.take gsz) ::
      chunksAux (if ssz = 0 then gsz else ssz) (r.drop gsz).length (r.drop gsz)).map
    List.reverse |>.reverse

/-- The output glyph of decimal digit `d`. -/
def glyphOfDigit (sym : DecimalFormatSymbol → List Nat) (d : Nat) : List Nat :=
  sym (digitSymbolOf ⟨d % 10, Nat.mod_lt d (by omega)⟩)

/-- Modelled from the spec: the Formatter for finite values (spec section
4.4): select the subpattern by sign, apply the multiplier, apply the
RoundingEngine, pad the integer part to `minIntegerDigits` (truncating on
the left only under an explicit `maxIntegerDigits`), drop trailing
fraction zeros beyond `minFractionDigits`, insert grouping separators when
grouping is used, substitute digit glyphs from the symbol table and wrap
the result in the rendered affixes.  Field spans are not modelled. -/
def formatDecimal (inst : FormatInstance) (x : Decimal) : List Nat :=
  let r := inst.rules
  let sym := inst.symbols
  let xm : Decimal := ⟨x.mantissa * (r.multiplier : Int), x.scale⟩
  let neg : Bool := decide (xm.mantissa < 0)
  let k := r.maxFractionDigits
  let y : Decimal := roundEngine inst.roundingMode inst.roundingIncrement k xm
  let scaled : Nat := (Int.fdiv (|y.mantissa| * 10 ^ k) ((10 : Int) ^ y.scale)).toNat
  let intVal := scaled / 10 ^ k
  let fracVal := scaled % 10 ^ k
  let intDigits0 := natDigits10 intVal
  let intDigits1 :=
    List.replicate (r.minIntegerDigits - intDigits0.length) 0 ++ intDigits0
  let intDigits :=
    match r.maxIntegerDigits with
    | none => intDigits1
    | some m => intDigits1.drop (intDigits1.length - m)
  let intText :=
    if r.useGrouping && !(r.groupingSize == 0) then
      ((groupDigits r.groupingSize r.secondaryGroupingSize intDigits).map
          (fun grp => (grp.map (glyphOfDigit sym)).flatten)).intersperse
        (sym .kGroupingSeparatorSymbol) |>.flatten
    else (intDigits.map (glyphOfDigit sym)).flatten
  let fracAll :=
    List.replicate (k - (natDigits10 fracVal).length) 0 ++ natDigits10 fracVal
  let trailingZeros := (fracAll.reverse.takeWhile (· == 0)).length
  let fracShown := fracAll.take (max r.minFractionDigits (k - trailingZeros))
  let fracText :=
    if fracShown.isEmpty then []
    else sym .kDecimalSeparatorSymbol ++ (fracShown.map (glyphOfDigit sym)).flatten
  renderAffix sym (if neg then r.negPre else r.posPre) ++ intText ++ fracText ++
    renderAffix sym (if neg then r.negSuf else r.posSuf)

/-- Modelled from the spec: `NativeDecimalFormat_formatDouble` (C++ lines
276-278) forwards to the engine's `DecimalFormat::format(double)`.  NaN
and the infinities emit their dedicated symbols (negative infinity wrapped
in the negative affixes); a finite double is formatted from the exact
rational it denotes (spec section 4.3: doubles are taken to their exact
decimal representation before rounding). -/
def NativeDecimalFormat_formatDouble (inst : FormatInstance) (v : ICUDouble) :
    List Nat :=
  match v with
  | .nan => inst.symbols .kNaNSymbol
  | .posInf => inst.symbols .kInfinitySymbol
  | .negInf =>
    renderAffix inst.symbols inst.rules.negPre ++ inst.symbols .kInfinitySymbol ++
      renderAffix inst.symbols inst.rules.negSuf
  | .finite v => formatDecimal inst v

/-- Modelled from the spec: a parse result value — an exact numeric value
`num / den` (the denominator collecting the fraction scale and the
multiplier, both powers of ten, and left unreduced) or a special double
(spec section 3, ParseResult). -/
inductive ParsedValue where
  | exact (num : Int) (den : Nat)
  | special (d : ICUDouble)
deriving DecidableEq

/-- Modelled from the spec: ParseResult — success with a value and the
ending offset one past the last consumed character, or failure with an
error offset; never both. -/
inductive EngineParseResult where
  | success (v : ParsedValue) (endOffset : Nat)
  | failure (errOffset : Nat)
deriving DecidableEq

/-- The digit value of a code unit under a symbol table: `d` when the unit
is the glyph of decimal digit `d` (spec section 4.5: digit glyphs are
mapped back to their value via the symbol table). -/
def digitValue (sym : DecimalFormatSymbol → List Nat) (c : Nat) :
    Option (Fin 10) :=
  (List.finRange 10).find? (fun d => sym (digitSymbolOf d) == [c])

/-- Outcome of the integer-digit scanning state. -/
inductive IntLoopOut where
  | fail (errPos : Nat)
  | frac (pos : Nat) (acc : Nat) (digits : Nat) (rest : List Nat)
  | stop (pos : Nat) (acc : Nat) (digits : Nat) (rest : List Nat)
deriving DecidableEq

/-- Modelled from the spec: the ExpectIntegerDigits state of the Parser
(spec section 4.5).  Digit glyphs accumulate into the value; a grouping
separator is accepted, and skipped, only between integer digits — one seen
before any digit, or immediately before the decimal separator, is a hard
failure at its offset, and one not followed by a digit ends the scan in
front of it; the decimal separator moves to the fraction state; any other
character ends the scan. -/
def intLoop (r : PatternRules) (sym : DecimalFormatSymbol → List Nat)
    (pos acc digits : Nat) : List Nat → IntLoopOut
  | [] => .stop pos acc digits []
  | c :: cs =>
    match digitValue sym c with
    | some d => intLoop r sym (pos + 1) (10 * acc + (d : Nat)) (digits + 1) cs
    | none =>
      if (sym .kGroupingSeparatorSymbol == [c]) && r.useGrouping then
        if digits = 0 then .fail pos
        else
          match cs with
          | [] => .stop pos acc digits [c]
          | c2 :: cs2 =>
            match digitValue sym c2 with
            | some _ => intLoop r sym (pos + 1) acc digits cs
            | none =>
              if sym .kDecimalSeparatorSymbol == [c2] then .fail pos
              else .stop pos acc digits (c :: c2 :: cs2)
      else if sym .kDecimalSeparatorSymbol == [c] then .frac (pos + 1) acc digits cs
      else .stop pos acc digits (c :: cs)

/-- Modelled from the spec: the ExpectFractionDigits state of the Parser
(spec section 4.5).  Fraction digits extend the mantissa while the scale
counts the decimal places; any non-digit ends the scan. -/
def fracLoop (sym : DecimalFormatSymbol → List Nat) (pos man scale digits : Nat) :
    List Nat → Nat × Nat × Nat × Nat × List Nat
  | [] => (pos, man, scale, digits, [])
  | c :: cs =>
    match digitValue sym c with
    | some d => fracLoop sym (pos + 1) (10 * man + (d : Nat)) (scale + 1) (digits + 1) cs
    | none => (pos, man, scale, digits, c :: cs)

/-- Modelled from the spec: the ExpectSuffix/Done states of the Parser
(spec section 4.5).  Success requires at least one consumed digit,
otherwise the stop position is the failure offset; a matching suffix is
consumed into the ending offset; the sign is applied and the multiplier
divided back out. -/
def finishParse (r : PatternRules) (sym : DecimalFormatSymbol → List Nat)
    (neg : Bool) (man scale digits pos : Nat) (rest : List Nat) :
    EngineParseResult :=
  if digits = 0 then .failure pos
  else
    let suf := renderAffix sym (if neg then r.negSuf else r.posSuf)
    let endPos := if !suf.isEmpty && suf.isPrefixOf rest then pos + suf.length else pos
    .success (.exact (if neg then -(man : Int) else (man : Int))
        (r.multiplier * 10 ^ scale)) endPos

/-- Modelled from the spec: `parse(text, startOffset, rules, symbols)` of
the Parser (spec section 4.5), the engine behind `DecimalFormat::parse`,
which the repository only calls through `NativeDecimalFormat_parse`.  The
state machine is ExpectPrefix, then ExpectIntegerDigits, then
ExpectFractionDigits or ExpectSuffix, with a NaN/Infinity short-circuit
when the configured symbol text matches; matching is maximal-prefix, any
unmatched character simply ending consumption, and failure is reported at
the offset where matching stopped when no digit was consumed. -/
def parseEngine (r : PatternRules) (sym : DecimalFormatSymbol → List Nat)
    (text : List Nat) (startOffset : Nat) : EngineParseResult :=
  let rest0 := text.drop startOffset
  let nan := sym .kNaNSymbol
  if !nan.isEmpty && nan.isPrefixOf rest0 then
    .success (.special .nan) (startOffset + nan.length)
  else
    let negP := renderAffix sym r.negPre
    let posP := renderAffix sym r.posPre
    let withSign := fun (neg : Bool) (pos1 : Nat) (rest1 : List Nat) =>
      let inf := sym .kInfinitySymbol
      if !inf.isEmpty && inf.isPrefixOf rest1 then
        .success (.special (if neg then .negInf else .posInf)) (pos1 + inf.length)
      else
        match intLoop r sym pos1 0 0 rest1 with
        | .fail e => .failure e
        | .frac pos2 acc digits rest2 =>
          match fracLoop sym pos2 acc 0 digits rest2 with
          | (pos3, man, scale, digits3, rest3) =>
            finishParse r sym neg man scale digits3 pos3 rest3
        | .stop pos2 acc digits rest2 => finishParse r sym neg acc 0 digits pos2 rest2
    if !negP.isEmpty && negP.isPrefixOf rest0 then
      withSign true (startOffset + negP.length) (rest0.drop negP.length)
    else if posP.isPrefixOf rest0 then
      withSign false (startOffset + posP.length) (rest0.drop posP.length)
    else .failure startOffset

/-- The rule set of an all-digit pattern with grouping (such as
`"#,##0.###"`): empty affixes apart from the default negative minus,
grouping by threes, multiplier one. -/
def digitRules : PatternRules :=
  { minIntegerDigits := 1, maxIntegerDigits := none
    minFractionDigits := 0, maxFractionDigits := 3
    groupingSize := 3, secondaryGroupingSize := 0, useGrouping := true
    posPre := [], posSuf := [], negPre := [.literal 45], negSuf := []
    multiplier := 1, roundingIncrement := ⟨0, 0⟩ }

/-- The instance used for the rounding claims: pattern `"0"` (zero
fraction digits) opened with the ASCII symbols, then set to half-even
rounding with no increment. -/
def c7inst : FormatInstance :=
  match NativeDecimalFormat_open [48] asciiArgs with
  | .ok i => NativeDecimalFormat_setRoundingMode i .kRoundHalfEven ⟨0, 0⟩
  | .error _ =>
    { rules := digitRules, symbols := asciiSymbols
      roundingMode := .kRoundHalfEven, roundingIncrement := ⟨0, 0⟩ }

/-- The numeric value of a digit list read most significant first. -/
def natOfDigits (ds : List (Fin 10)) : Nat :=
  ds.foldl (fun a d => 10 * a + (d : Nat)) 0

/-- The ASCII text of a digit list. -/
def digitChars (ds : List (Fin 10)) : List Nat :=
  ds.map (fun d => 48 + (d : Nat))

/-- The first character of `rest`, if any, stops the digit scan under the
ASCII symbols: it is no digit glyph, not the grouping comma and not the
decimal point. -/
def stopHeadB : List Nat → Bool
  | [] => true
  | c :: _ => (digitValue asciiSymbols c).isNone && !(c == 44) && !(c == 46)

/-- Claim C9: a parse call whose starting offset is negative or greater
than the input length returns null immediately (the guard of C++ lines
316-319), consuming nothing and leaving both the index and the error index
of the parse position untouched. -/
theorem c9_parse_position_out_of_range (fmt : List Nat → Nat → EngineOutcome)
    (text : List Nat) (position : ParsePosition) (parseBigDecimal : Bool)
    (h : position.index < 0 ∨ position.index > (text.length : Int)) :
    NativeDecimalFormat_parse fmt text position parseBigDecimal = (none, position) := by
  unfold NativeDecimalFormat_parse
  rw [if_pos h]

/-- Witness for C9 at the concrete position index -1 on empty text. -/
theorem c9_parse_position_out_of_range_instance :
    ((-1 : Int) < 0 ∨ (-1 : Int) > (([] : List Nat).length : Int)) ∧
    NativeDecimalFormat_parse (fun _ _ => .failure 0) [] ⟨-1, -1⟩ false =
      (none, ⟨-1, -1⟩) :=
  ⟨Or.inl (by decide),
    c9_parse_position_out_of_range (fun _ _ => .failure 0) [] ⟨-1, -1⟩ false
      (Or.inl (by decide))⟩

/-- Claim C10: every symbol set built by `makeDecimalFormatSymbols` — the
only constructor used by `NativeDecimalFormat_open` and
`NativeDecimalFormat_setDecimalFormatSymbols` — stores the very same value
for the monetary grouping separator and the ordinary grouping separator
(C++ lines 70-71 write the same `groupingSeparator` string to both), so
after either operation the two symbols agree. -/
theorem c10_monetary_grouping_agrees (a : SymbolArgs) (inst : FormatInstance) :
    makeDecimalFormatSymbols a .kMonetaryGroupingSeparatorSymbol =
      makeDecimalFormatSymbols a .kGroupingSeparatorSymbol ∧
    (NativeDecimalFormat_setDecimalFormatSymbols inst a).symbols
        .kMonetaryGroupingSeparatorSymbol =
      (NativeDecimalFormat_setDecimalFormatSymbols inst a).symbols
        .kGroupingSeparatorSymbol :=
  ⟨rfl, rfl⟩

/-- Decoding the UTF-16 encoding of a valid code point gives that code
point back. -/
theorem utf16Encode_decode (v : Nat) (h : v < 1114112) :
    codePointsOfUtf16 (utf16Encode v) = [v] := by
  rw [utf16Encode]
  by_cases h1 : v < 65536
  · rw [if_pos h1]
    rfl
  · rw [if_neg h1, codePointsOfUtf16]
    rw [if_pos (by omega)]
    rw [show codePointsOfUtf16 [] = [] from rfl]
    have : 65536 + (55296 + (v - 65536) / 1024 - 55296) * 1024 +
        (56320 + (v - 65536) % 1024 - 56320) = v := by omega
    rw [this]

/-- Claim C8: for every symbol set installed via `open` or
`setDecimalFormatSymbols` with zero-digit jchar `z`, the glyph stored for
digit `d` is the UTF-16 encoding of exactly the code point `z + d` — the
int sum at C++ lines 82-91 selects the `UnicodeString(UChar32)` code-point
constructor — so the ten digit glyphs are the contiguous code points
`z`, ..., `z + 9`. -/
theorem c8_digit_glyphs_contiguous (a : SymbolArgs) (d : Fin 10)
    (h : a.zeroDigit < 65536) :
    makeDecimalFormatSymbols a (digitSymbolOf d) =
      utf16Encode (a.zeroDigit + (d : Nat)) ∧
    codePointsOfUtf16 (makeDecimalFormatSymbols a (digitSymbolOf d)) =
      [a.zeroDigit + (d : Nat)] := by
  constructor
  · fin_cases d <;> rfl
  · fin_cases d <;> exact utf16Encode_decode _ (by omega)

/-- Witness for C8 at the ASCII zero digit (digit 3 is the code point 51)
and at the largest jchar zero digit 0xFFFF, where digit 1 is the
supplementary code point 0x10000 stored as a surrogate pair. -/
theorem c8_digit_glyphs_contiguous_instance :
    asciiArgs.zeroDigit < 65536 ∧
    codePointsOfUtf16 (makeDecimalFormatSymbols asciiArgs (digitSymbolOf 3)) =
      [51] ∧
    codePointsOfUtf16 (makeDecimalFormatSymbols
      { asciiArgs with zeroDigit := 65535 } (digitSymbolOf 1)) = [65536] :=
  ⟨by decide, (c8_digit_glyphs_contiguous asciiArgs 3 (by decide)).2,
    (c8_digit_glyphs_contiguous { asciiArgs with zeroDigit := 65535 } 1
      (by decide)).2⟩

/-- Claim C2: a parse call starting in bounds has exactly one of two
shapes: the engine succeeds and the call returns a value with the parse
position index set to the ending offset (error index untouched), or the
engine fails and the call returns null with the error index set to the
error offset (index untouched); both outcomes are normal returns of C++
lines 326-331, no exception is involved. -/
theorem c2_parse_result_shape (fmt : List Nat → Nat → EngineOutcome)
    (text : List Nat) (position : ParsePosition) (parseBigDecimal : Bool)
    (h0 : 0 ≤ position.index) (h1 : position.index ≤ (text.length : Int)) :
    (∃ v res ds e, fmt text position.index.toNat = .success res ds e ∧
        NativeDecimalFormat_parse fmt text position parseBigDecimal =
          (some v, { position with index := (e : Int) })) ∨
    (∃ e, fmt text position.index.toNat = .failure e ∧
        NativeDecimalFormat_parse fmt text position parseBigDecimal =
          (none, { position with errorIndex := (e : Int) })) := by
  unfold NativeDecimalFormat_parse
  rw [if_neg (by omega)]
  cases hf : fmt text position.index.toNat with
  | failure e => exact Or.inr ⟨e, rfl, by simp⟩
  | success res ds e =>
    refine Or.inl ?_
    cases parseBigDecimal with
    | true =>
      by_cases hsp : isSpecialDecimal ds = true
      · exact ⟨.doubleObj res.getDouble, res, ds, e, rfl, by simp [hsp]⟩
      · exact ⟨.bigDecimalObj ds, res, ds, e, rfl, by simp [hsp]⟩
    | false =>
      cases res with
      | kDouble v => exact ⟨.doubleObj v, _, ds, e, rfl, by simp⟩
      | kLong v => exact ⟨.longObj v, _, ds, e, rfl, by simp⟩
      | kInt64 v => exact ⟨.longObj v, _, ds, e, rfl, by simp⟩

/-- Witness for C2 at a concrete failing engine and an in-bounds
position. -/
theorem c2_parse_result_shape_instance :
    (0 : Int) ≤ 0 ∧ (0 : Int) ≤ (([] : List Nat).length : Int) ∧
    ((∃ v res ds e, (fun (_ : List Nat) (_ : Nat) => EngineOutcome.failure 7) []
          ((0 : Int)).toNat = .success res ds e ∧
        NativeDecimalFormat_parse (fun _ _ => .failure 7) [] ⟨0, -1⟩ false =
          (some v, { index := (e : Int), errorIndex := -1 })) ∨
    (∃ e, (fun (_ : List Nat) (_ : Nat) => EngineOutcome.failure 7) []
          ((0 : Int)).toNat = .failure e ∧
        NativeDecimalFormat_parse (fun _ _ => .failure 7) [] ⟨0, -1⟩ false =
          (none, { index := 0, errorIndex := (e : Int) }))) :=
  ⟨le_refl 0, by decide,
    c2_parse_result_shape (fun _ _ => .failure 7) [] ⟨0, -1⟩ false (by decide) (by decide)⟩

/-- Claim C5: when exact-decimal results are requested
(`parseBigDecimal = true`), a successful in-bounds parse returns the exact
decimal digit string as a `BigDecimal`, except that a decimal text naming
NaN or an infinity comes back as a `Double` (C++ lines 333-348). -/
theorem c5_bigdecimal_result_kind (fmt : List Nat → Nat → EngineOutcome)
    (text : List Nat) (position : ParsePosition) (res : Formattable)
    (ds : List Nat) (e : Nat)
    (h0 : 0 ≤ position.index) (h1 : position.index ≤ (text.length : Int))
    (hs : fmt text position.index.toNat = .success res ds e) :
    (NativeDecimalFormat_parse fmt text position true).1 =
      some (if isSpecialDecimal ds then .doubleObj res.getDouble
            else .bigDecimalObj ds) := by
  unfold NativeDecimalFormat_parse
  rw [if_neg (by omega)]
  simp only [hs]
  by_cases hsp : isSpecialDecimal ds = true <;> simp [hsp]

/-- Witness for C5: a successful parse whose decimal text is `"NaN"`
returns a `Double`, and one with text `"4"` returns a `BigDecimal`. -/
theorem c5_bigdecimal_result_kind_instance :
    (NativeDecimalFormat_parse
        (fun _ _ => .success (.kDouble .nan) nanChars 3) nanChars ⟨0, -1⟩ true).1 =
      some (.doubleObj .nan) ∧
    (NativeDecimalFormat_parse
        (fun _ _ => .success (.kInt64 4) [52] 1) [52] ⟨0, -1⟩ true).1 =
      some (.bigDecimalObj [52]) := by
  constructor
  · have h := c5_bigdecimal_result_kind
      (fun _ _ => .success (.kDouble .nan) nanChars 3) nanChars ⟨0, -1⟩
      (.kDouble .nan) nanChars 3 (by decide) (by decide) rfl
    simpa using h
  · have h := c5_bigdecimal_result_kind
      (fun _ _ => .success (.kInt64 4) [52] 1) [52] ⟨0, -1⟩
      (.kInt64 4) [52] 1 (by decide) (by decide) rfl
    simpa using h

/-- Claim C6: `NativeDecimalFormat_open` either hands out an instance
whose rule set is the compiled pattern and whose symbols are the supplied
symbol set, or fails with the pattern syntax error, handing out nothing
(C++ lines 109-132: a compile-time pattern error reaches
`maybeThrowIcuException` and aborts the call). -/
theorem c6_open_pattern_error (p : List Nat) (a : SymbolArgs) :
    (∃ inst, NativeDecimalFormat_open p a = .ok inst ∧
        compile canonicalGlyphs p = .ok inst.rules ∧
        inst.symbols = makeDecimalFormatSymbols a) ∨
    (∃ e, NativeDecimalFormat_open p a = .error e ∧
        compile canonicalGlyphs p = .error e) := by
  unfold NativeDecimalFormat_open
  cases h : compile canonicalGlyphs p with
  | ok r => exact Or.inl ⟨_, rfl, rfl, rfl⟩
  | error e => exact Or.inr ⟨e, rfl, rfl⟩

/-- Claim C7: under half-even rounding with zero fraction digits the
values 0.5, 1.5 and 2.5 format as `"0"`, `"2"` and `"2"`, and in general a
tie `n + 1/2` rounds to the even neighbour. -/
theorem c7_half_even_ties :
    NativeDecimalFormat_formatDouble c7inst (.finite ⟨5, 1⟩) = [48] ∧
    NativeDecimalFormat_formatDouble c7inst (.finite ⟨15, 1⟩) = [50] ∧
    NativeDecimalFormat_formatDouble c7inst (.finite ⟨25, 1⟩) = [50] ∧
    ∀ n : Int, divRoundInt .kRoundHalfEven (2 * n + 1) 2 % 2 = 0 := by
  refine ⟨by decide, by decide, by decide, fun n => ?_⟩
  have hq : Int.fdiv (2 * n + 1) 2 = n := by
    rw [Int.fdiv_eq_ediv _ (by norm_num)]
    omega
  have h1 : 2 * n + 1 - n * 2 = 1 := by ring
  simp only [divRoundInt, hq, h1]
  norm_num
  split <;> omega

/-- Under the ASCII symbols, the glyph `48 + d` reads back as digit `d`. -/
theorem digitValue_ascii_digit (d : Fin 10) :
    digitValue asciiSymbols (48 + (d : Nat)) = some d := by
  fin_cases d <;> decide

/-- `intLoop` consumes a run of digit glyphs wholesale, advancing the
position and digit count by its length and folding the digits into the
accumulator. -/
theorem intLoop_unroll (ds : List (Fin 10)) (pos acc digits : Nat)
    (rest : List Nat) :
    intLoop digitRules asciiSymbols pos acc digits (digitChars ds ++ rest) =
      intLoop digitRules asciiSymbols (pos + ds.length)
        (ds.foldl (fun a d => 10 * a + (d : Nat)) acc) (digits + ds.length) rest := by
  induction ds generalizing pos acc digits with
  | nil => simp [digitChars]
  | cons d ds2 ih =>
    have hstep :
        digitChars (d :: ds2) ++ rest = (48 + (d : Nat)) :: (digitChars ds2 ++ rest) := by
      simp [digitChars]
    rw [hstep]
    simp only [intLoop, digitValue_ascii_digit d]
    rw [ih]
    simp only [List.foldl_cons, List.length_cons]
    congr 1
    · omega
    · omega

/-- Digit scanning stops in front of a character that is no digit glyph,
no grouping comma and no decimal point. -/
theorem intLoop_stop_at (pos acc digits : Nat) (rest : List Nat)
    (h : stopHeadB rest = true) :
    intLoop digitRules asciiSymbols pos acc digits rest = .stop pos acc digits rest := by
  cases rest with
  | nil => simp [intLoop]
  | cons c cs =>
    simp only [stopHeadB, Bool.and_eq_true, Bool.not_eq_true', beq_eq_false_iff_ne,
      Option.isNone_iff_eq_none] at h
    obtain ⟨⟨h1, h2⟩, h3⟩ := h
    have h44 : ((asciiSymbols .kGroupingSeparatorSymbol) == [c]) = false := by
      rw [show asciiSymbols .kGroupingSeparatorSymbol = [44] from rfl]
      rw [beq_eq_false_iff_ne]
      simp [Ne.symm h2]
    have h46 : ((asciiSymbols .kDecimalSeparatorSymbol) == [c]) = false := by
      rw [show asciiSymbols .kDecimalSeparatorSymbol = [46] from rfl]
      rw [beq_eq_false_iff_ne]
      simp [Ne.symm h3]
    simp [intLoop, h1, h44, h46]

/-- The successful exit of the parse of a plain digit run: at least one
digit, no suffix to match, value the accumulator over denominator one. -/
theorem finishParse_plain (acc digits pos : Nat) (h : ¬ digits = 0) (rest : List Nat) :
    finishParse digitRules asciiSymbols false acc 0 digits pos rest =
      .success (.exact (acc : Nat) 1) pos := by
  rw [finishParse, if_neg h]
  rw [show renderAffix asciiSymbols (if false then digitRules.negSuf else digitRules.posSuf) = []
    from rfl]
  norm_num
  rfl

/-- Claim C3: parsing is maximal-prefix — a nonempty run of digit glyphs
followed by any non-continuing character (no digit, no grouping comma, no
decimal point) parses successfully against the all-digit rule set, with
the value of the digit run and the end offset at the first unmatched
character, not a failure. -/
theorem c3_parse_maximal_prefix (ds : List (Fin 10)) (rest : List Nat)
    (hne : ds ≠ []) (hstop : stopHeadB rest = true) :
    parseEngine digitRules asciiSymbols (digitChars ds ++ rest) 0 =
      .success (.exact (natOfDigits ds : Nat) 1) ds.length := by
  obtain ⟨d, ds2, rfl⟩ := List.exists_cons_of_ne_nil hne
  have hd : (d : Nat) < 10 := d.isLt
  have hstep :
      digitChars (d :: ds2) ++ rest = (48 + (d : Nat)) :: (digitChars ds2 ++ rest) := by
    simp [digitChars]
  have h78 : ((78 : Nat) == 48 + (d : Nat)) = false := beq_eq_false_iff_ne.mpr (by omega)
  have h45 : ((45 : Nat) == 48 + (d : Nat)) = false := beq_eq_false_iff_ne.mpr (by omega)
  have h8734 : ((8734 : Nat) == 48 + (d : Nat)) = false := beq_eq_false_iff_ne.mpr (by omega)
  unfold parseEngine
  rw [hstep]
  rw [show (asciiSymbols .kNaNSymbol) = [78, 97, 78] from rfl]
  rw [show renderAffix asciiSymbols digitRules.negPre = [45] from rfl]
  rw [show renderAffix asciiSymbols digitRules.posPre = [] from rfl]
  rw [show (asciiSymbols .kInfinitySymbol) = [8734] from rfl]
  simp only [List.drop_zero, List.isPrefixOf, h78, h45, h8734, Bool.false_and,
    Bool.and_false, List.length_nil, List.drop, Bool.false_eq_true, if_false,
    List.isEmpty_cons, Bool.not_false, Bool.true_and, Nat.zero_add]
  rw [← hstep, intLoop_unroll (d :: ds2) 0 0 0 rest]
  rw [intLoop_stop_at _ _ _ rest hstop]
  simp only [if_true, Nat.zero_add]
  rw [finishParse_plain _ _ _ (by simp)]
  simp [natOfDigits]

/-- Witness for C3 on the spec's example `"123abc"`: value 123, end
offset 3. -/
theorem c3_parse_maximal_prefix_instance :
    ([1, 2, 3] : List (Fin 10)) ≠ [] ∧ stopHeadB [97, 98, 99] = true ∧
    parseEngine digitRules asciiSymbols [49, 50, 51, 97, 98, 99] 0 =
      .success (.exact 123 1) 3 :=
  ⟨by decide, by decide,
    c3_parse_maximal_prefix [1, 2, 3] [97, 98, 99] (by decide) (by decide)⟩

/-- A parse of text beginning with a digit glyph enters the integer
digit state directly: the NaN, infinity and sign prefixes cannot match. -/
theorem parseEngine_digit_start (d : Fin 10) (l : List Nat) :
    parseEngine digitRules asciiSymbols ((48 + (d : Nat)) :: l) 0 =
      (match intLoop digitRules asciiSymbols 0 0 0 ((48 + (d : Nat)) :: l) with
       | .fail e => .failure e
       | .frac pos2 acc digits rest2 =>
         (match fracLoop asciiSymbols pos2 acc 0 digits rest2 with
          | (pos3, man, scale, digits3, rest3) =>
            finishParse digitRules asciiSymbols false man scale digits3 pos3 rest3)
       | .stop pos2 acc digits rest2 =>
         finishParse digitRules asciiSymbols false acc 0 digits pos2 rest2) := by
  have hd : (d : Nat) < 10 := d.isLt
  have h78 : ((78 : Nat) == 48 + (d : Nat)) = false := beq_eq_false_iff_ne.mpr (by omega)
  have h45 : ((45 : Nat) == 48 + (d : Nat)) = false := beq_eq_false_iff_ne.mpr (by omega)
  have h8734 : ((8734 : Nat) == 48 + (d : Nat)) = false := beq_eq_false_iff_ne.mpr (by omega)
  unfold parseEngine
  rw [show (asciiSymbols .kNaNSymbol) = [78, 97, 78] from rfl]
  rw [show renderAffix asciiSymbols digitRules.negPre = [45] from rfl]
  rw [show renderAffix asciiSymbols digitRules.posPre = [] from rfl]
  rw [show (asciiSymbols .kInfinitySymbol) = [8734] from rfl]
  simp only [List.drop_zero, List.isPrefixOf, h78, h45, h8734, Bool.false_and,
    Bool.and_false, List.length_nil, List.drop, Bool.false_eq_true, if_false,
    List.isEmpty_cons, Bool.not_false, Bool.true_and, Nat.zero_add, if_true]

/-- A grouping separator directly followed by the decimal separator is a
hard parse failure at the separator's offset once digits have been seen. -/
theorem intLoop_sep_before_decimal (pos acc digits : Nat) (h : ¬ digits = 0)
    (rest : List Nat) :
    intLoop digitRules asciiSymbols pos acc digits (44 :: 46 :: rest) = .fail pos := by
  simp [intLoop, show digitValue asciiSymbols 44 = none from by decide,
    show digitValue asciiSymbols 46 = none from by decide, h,
    show ((asciiSymbols .kGroupingSeparatorSymbol) == [(44 : Nat)]) = true from by decide,
    show digitRules.useGrouping = true from rfl,
    show ((asciiSymbols .kDecimalSeparatorSymbol) == [(46 : Nat)]) = true from by decide]

/-- Claim C4: a grouping separator is accepted only between integer
digits — one at the very start of the number (immediately after the empty
prefix) fails the parse at its offset, as does one immediately before the
decimal point; in particular `",123"` fails at offset 0 rather than
parsing 123. -/
theorem c4_grouping_misplaced_fails :
    (∀ rest : List Nat,
      parseEngine digitRules asciiSymbols (44 :: rest) 0 = .failure 0) ∧
    (∀ (ds : List (Fin 10)) (rest : List Nat), ds ≠ [] →
      parseEngine digitRules asciiSymbols (digitChars ds ++ 44 :: 46 :: rest) 0 =
        .failure ds.length) := by
  constructor
  · intro rest
    unfold parseEngine
    rw [show (asciiSymbols .kNaNSymbol) = [78, 97, 78] from rfl]
    rw [show renderAffix asciiSymbols digitRules.negPre = [45] from rfl]
    rw [show renderAffix asciiSymbols digitRules.posPre = [] from rfl]
    rw [show (asciiSymbols .kInfinitySymbol) = [8734] from rfl]
    simp only [List.drop_zero, List.isPrefixOf,
      show ((78 : Nat) == 44) = false from by decide,
      show ((45 : Nat) == 44) = false from by decide,
      show ((8734 : Nat) == 44) = false from by decide, Bool.false_and,
      Bool.and_false, List.length_nil, List.drop, Bool.false_eq_true, if_false,
      List.isEmpty_cons, Bool.not_false, Bool.true_and, Nat.zero_add, if_true]
    rw [show intLoop digitRules asciiSymbols 0 0 0 (44 :: rest) = .fail 0 from by
      simp [intLoop, show digitValue asciiSymbols 44 = none from by decide,
        show ((asciiSymbols .kGroupingSeparatorSymbol) == [(44 : Nat)]) = true from by decide,
        show digitRules.useGrouping = true from rfl]]
  · intro ds rest hne
    obtain ⟨d, ds2, rfl⟩ := List.exists_cons_of_ne_nil hne
    have hstep : digitChars (d :: ds2) ++ 44 :: 46 :: rest =
        (48 + (d : Nat)) :: (digitChars ds2 ++ 44 :: 46 :: rest) := by
      simp [digitChars]
    rw [hstep, parseEngine_digit_start d, ← hstep,
      intLoop_unroll (d :: ds2) 0 0 0 (44 :: 46 :: rest),
      intLoop_sep_before_decimal _ _ _ (by simp)]
    simp

/-- Witness for C4 on the spec's example `",123"` (failure at offset 0)
and on `"1,."` (separator immediately before the decimal point, failure at
offset 1). -/
theorem c4_grouping_misplaced_fails_instance :
    parseEngine digitRules asciiSymbols [44, 49, 50, 51] 0 = .failure 0 ∧
    (([1] : List (Fin 10)) ≠ [] ∧
      parseEngine digitRules asciiSymbols [49, 44, 46] 0 = .failure 1) :=
  ⟨c4_grouping_misplaced_fails.1 [49, 50, 51],
    ⟨by decide, c4_grouping_misplaced_fails.2 [1] [] (by decide)⟩⟩

/-- The marker glyphs are no affix stop characters, none of the special
glyphs is the quote, and the three markers are pairwise distinct. -/
theorem affix_char_facts (g : PatternGlyphs) (hg : GlyphsDistinct g) :
    isAffixStopChar g g.percent = false ∧
    isAffixStopChar g g.perMill = false ∧
    isAffixStopChar g g.currency = false ∧
    g.percent ≠ 39 ∧ g.perMill ≠ 39 ∧ g.currency ≠ 39 ∧
    g.perMill ≠ g.percent ∧ g.currency ≠ g.percent ∧ g.currency ≠ g.perMill := by
  obtain ⟨h1, h2, h3, h4, h5, h6, h7, h8⟩ := hg
  simp only [List.mem_cons, List.not_mem_nil, or_false, not_or] at h1 h2 h3 h4 h5 h6 h7
  simp only [isAffixStopChar, Bool.or_eq_false_iff, beq_eq_false_iff_ne]
  refine ⟨?_, ?_, ?_, ?_, ?_, ?_, ?_, ?_, ?_⟩ <;> tauto

/-- An affix stop character is never the quote. -/
theorem stop_char_ne_quote (g : PatternGlyphs) (hg : GlyphsDistinct g) (c : Nat)
    (h : isAffixStopChar g c = true) : c ≠ 39 := by
  obtain ⟨h1, h2, h3, h4, h5, h6, h7, h8⟩ := hg
  simp only [List.mem_cons, List.not_mem_nil, or_false, not_or] at h1 h2 h3 h4 h5
  simp only [isAffixStopChar, Bool.or_eq_true, beq_iff_eq] at h
  rcases h with ((((h | h) | h) | h) | h) <;> subst h <;> tauto

/-- Scanning one non-quote character outside quotes. -/
theorem scanAffix_cons_out (g : PatternGlyphs) (c : Nat) (l : List Nat)
    (hc : c ≠ 39) :
    scanAffix g false (c :: l) =
      (if isAffixStopChar g c then .ok ([], c :: l)
       else if c = g.percent then consTok .percent (scanAffix g false l)
       else if c = g.perMill then consTok .perMille (scanAffix g false l)
       else if c = g.currency then consTok .currency (scanAffix g false l)
       else consTok (.literal c) (scanAffix g false l)) := by
  cases l with
  | nil => simp [scanAffix, hc]
  | cons c2 cs2 => simp [scanAffix, hc]

/-- Scanning one non-quote character inside quotes. -/
theorem scanAffix_cons_in (g : PatternGlyphs) (c : Nat) (l : List Nat)
    (hc : c ≠ 39) :
    scanAffix g true (c :: l) = consTok (.literal c) (scanAffix g true l) := by
  cases l with
  | nil => simp [scanAffix, hc, consTok]
  | cons c2 cs2 => simp [scanAffix, hc]

/-- An opening quote followed by a non-quote character. -/
theorem scanAffix_quote_open (g : PatternGlyphs) (c2 : Nat) (cs2 : List Nat)
    (hc2 : c2 ≠ 39) :
    scanAffix g false (39 :: c2 :: cs2) = scanAffix g true (c2 :: cs2) := by
  simp [scanAffix, hc2]

/-- A doubled quote outside quotes is one literal quote. -/
theorem scanAffix_dquote_out (g : PatternGlyphs) (cs2 : List Nat) :
    scanAffix g false (39 :: 39 :: cs2) = consTok (.literal 39) (scanAffix g false cs2) := by
  simp [scanAffix]

/-- A doubled quote inside quotes is one literal quote. -/
theorem scanAffix_dquote_in (g : PatternGlyphs) (cs2 : List Nat) :
    scanAffix g true (39 :: 39 :: cs2) = consTok (.literal 39) (scanAffix g true cs2) := by
  simp [scanAffix]

/-- A closing quote: inside quotes, a quote not followed by another quote
returns to the outside state. -/
theorem scanAffix_quote_close (g : PatternGlyphs) (l : List Nat)
    (hl : l = [] ∨ ∃ c cs, l = c :: cs ∧ c ≠ 39) :
    scanAffix g true (39 :: l) = scanAffix g false l := by
  rcases hl with rfl | ⟨c, cs, rfl, hc⟩
  · simp [scanAffix]
  · simp [scanAffix, hc]

/-- Scanning an affix stops immediately at the end of text or at a stop
character. -/
theorem scanAffix_stop (g : PatternGlyphs) (hg : GlyphsDistinct g)
    (rest : List Nat)
    (hrest : rest = [] ∨ ∃ c cs, rest = c :: cs ∧ isAffixStopChar g c = true) :
    scanAffix g false rest = .ok ([], rest) := by
  rcases hrest with rfl | ⟨c, cs, rfl, hc⟩
  · simp [scanAffix]
  · rw [scanAffix_cons_out g c cs (stop_char_ne_quote g hg c hc), if_pos hc]

/-- The affix printer and the affix scanner are inverse: scanning the
printed form of a token list, followed by end of text or a stop character,
recovers exactly the token list. -/
theorem scanAffix_print (g : PatternGlyphs) (hg : GlyphsDistinct g)
    (ts : List AffixToken) (b : Bool) (rest : List Nat)
    (hrest : rest = [] ∨ ∃ c cs, rest = c :: cs ∧ isAffixStopChar g c = true) :
    scanAffix g b (printAffixAux g b ts ++ rest) = .ok (ts, rest) := by
  obtain ⟨sper, smil, scur, hper39, hmil39, hcur39, hmilper, hcurper, hcurmil⟩ :=
    affix_char_facts g hg
  have hshape : rest = [] ∨ ∃ c cs, rest = c :: cs ∧ c ≠ 39 := by
    rcases hrest with rfl | ⟨c, cs, rfl, hc⟩
    · exact Or.inl rfl
    · exact Or.inr ⟨c, cs, rfl, stop_char_ne_quote g hg c hc⟩
  induction ts generalizing b with
  | nil =>
    cases b with
    | false =>
      rw [show printAffixAux g false [] = [] from rfl, List.nil_append]
      exact scanAffix_stop g hg rest hrest
    | true =>
      rw [show printAffixAux g true [] = [39] from rfl]
      rw [show ([39] : List Nat) ++ rest = 39 :: rest from rfl]
      rw [scanAffix_quote_close g rest hshape]
      exact scanAffix_stop g hg rest hrest
  | cons t ts ih =>
    cases b with
    | false =>
      cases t with
      | percent =>
        rw [show printAffixAux g false (.percent :: ts) =
            g.percent :: printAffixAux g false ts from rfl, List.cons_append]
        rw [scanAffix_cons_out g g.percent _ hper39]
        rw [sper]
        simp only [Bool.false_eq_true, if_false, if_pos rfl]
        rw [ih false]
        rfl
      | perMille =>
        rw [show printAffixAux g false (.perMille :: ts) =
            g.perMill :: printAffixAux g false ts from rfl, List.cons_append]
        rw [scanAffix_cons_out g g.perMill _ hmil39]
        rw [smil]
        simp only [Bool.false_eq_true, if_false, if_neg hmilper, if_pos rfl]
        rw [ih false]
        rfl
      | currency =>
        rw [show printAffixAux g false (.currency :: ts) =
            g.currency :: printAffixAux g false ts from rfl, List.cons_append]
        rw [scanAffix_cons_out g g.currency _ hcur39]
        rw [scur]
        simp only [Bool.false_eq_true, if_false, if_neg hcurper, if_neg hcurmil,
          if_pos rfl]
        rw [ih false]
        rfl
      | literal c =>
        by_cases hc : c = 39
        · subst hc
          rw [show printAffixAux g false (.literal 39 :: ts) =
              39 :: 39 :: printAffixAux g false ts from by simp [printAffixAux],
            List.cons_append, List.cons_append, scanAffix_dquote_out]
          rw [ih false]
          rfl
        · rw [show printAffixAux g false (.literal c :: ts) =
              39 :: c :: printAffixAux g true ts from by simp [printAffixAux, hc],
            List.cons_append, List.cons_append, scanAffix_quote_open g c _ hc,
            scanAffix_cons_in g c _ hc]
          rw [ih true]
          rfl
    | true =>
      cases t with
      | percent =>
        rw [show printAffixAux g true (.percent :: ts) =
            39 :: g.percent :: printAffixAux g false ts from rfl,
          List.cons_append, List.cons_append,
          scanAffix_quote_close g _ (Or.inr ⟨g.percent, _, rfl, hper39⟩),
          scanAffix_cons_out g g.percent _ hper39]
        rw [sper]
        simp only [Bool.false_eq_true, if_false, if_pos rfl]
        rw [ih false]
        rfl
      | perMille =>
        rw [show printAffixAux g true (.perMille :: ts) =
            39 :: g.perMill :: printAffixAux g false ts from rfl,
          List.cons_append, List.cons_append,
          scanAffix_quote_close g _ (Or.inr ⟨g.perMill, _, rfl, hmil39⟩),
          scanAffix_cons_out g g.perMill _ hmil39]
        rw [smil]
        simp only [Bool.false_eq_true, if_false, if_neg hmilper, if_pos rfl]
        rw [ih false]
        rfl
      | currency =>
        rw [show printAffixAux g true (.currency :: ts) =
            39 :: g.currency :: printAffixAux g false ts from rfl,
          List.cons_append, List.cons_append,
          scanAffix_quote_close g _ (Or.inr ⟨g.currency, _, rfl, hcur39⟩),
          scanAffix_cons_out g g.currency _ hcur39]
        rw [scur]
        simp only [Bool.false_eq_true, if_false, if_neg hcurper, if_neg hcurmil,
          if_pos rfl]
        rw [ih false]
        rfl
      | literal c =>
        by_cases hc : c = 39
        · subst hc
          rw [show printAffixAux g true (.literal 39 :: ts) =
              39 :: 39 :: printAffixAux g true ts from by simp [printAffixAux],
            List.cons_append, List.cons_append, scanAffix_dquote_in]
          rw [ih true]
          rfl
        · rw [show printAffixAux g true (.literal c :: ts) =
              c :: printAffixAux g true ts from by simp [printAffixAux, hc],
            List.cons_append, scanAffix_cons_in g c _ hc]
          rw [ih true]
          rfl

/-- A run of characters all satisfying `p`, followed by the end or a
character failing `p`, is exactly what `takeWhile` keeps and `dropWhile`
removes. -/
theorem takeWhile_dropWhile_append (p : Nat → Bool) (A B : List Nat)
    (hA : ∀ a ∈ A, p a = true)
    (hB : B = [] ∨ ∃ c cs, B = c :: cs ∧ p c = false) :
    (A ++ B).takeWhile p = A ∧ (A ++ B).dropWhile p = B := by
  induction A with
  | nil =>
    rcases hB with rfl | ⟨c, cs, rfl, hc⟩
    · simp
    · simp [List.takeWhile_cons, List.dropWhile_cons, hc]
  | cons a A ih =>
    have ha : p a = true := hA a (by simp)
    have ih2 := ih (fun x hx => hA x (by simp [hx]))
    simp [List.takeWhile_cons, List.dropWhile_cons, ha, ih2.1, ih2.2]

/-- `splitSeg` never returns the empty list of segments. -/
theorem splitSeg_ne_nil (sep : Nat) (l : List Nat) : splitSeg sep l ≠ [] := by
  cases l with
  | nil => simp [splitSeg]
  | cons c cs =>
    rw [splitSeg]
    rcases h : splitSeg sep cs with _ | ⟨s, rs⟩
    · simp
    · by_cases hc : c = sep <;> simp [hc]

/-- Splitting a separator-free list yields one segment. -/
theorem splitSeg_no_sep (sep : Nat) (l : List Nat) (h : ∀ c ∈ l, c ≠ sep) :
    splitSeg sep l = [l] := by
  induction l with
  | nil => rfl
  | cons c cs ih =>
    rw [splitSeg, ih (fun x hx => h x (by simp [hx]))]
    simp [h c (by simp)]

/-- Splitting at an explicit separator position. -/
theorem splitSeg_append (sep : Nat) (A B : List Nat) (hA : ∀ c ∈ A, c ≠ sep) :
    splitSeg sep (A ++ sep :: B) = A :: splitSeg sep B := by
  induction A with
  | nil =>
    rw [List.nil_append, splitSeg]
    rcases h : splitSeg sep B with _ | ⟨s, rs⟩
    · exact absurd h (splitSeg_ne_nil sep B)
    · simp
  | cons a A ih =>
    rw [List.cons_append, splitSeg, ih (fun x hx => hA x (by simp [hx]))]
    simp [hA a (by simp)]

/-- Character class facts for the digit-part scanners under distinct
glyphs. -/
theorem run_char_facts (g : PatternGlyphs) (hg : GlyphsDistinct g) :
    isRunChar g g.decimalSep = false ∧ isRunChar g g.patternSep = false ∧
    isRunChar g 39 = false ∧ isRunChar g g.percent = false ∧
    isRunChar g g.perMill = false ∧ isRunChar g g.currency = false ∧
    isFracChar g g.patternSep = false ∧ isFracChar g 39 = false ∧
    isFracChar g g.percent = false ∧ isFracChar g g.perMill = false ∧
    isFracChar g g.currency = false ∧ isFracChar g g.decimalSep = false := by
  obtain ⟨h1, h2, h3, h4, h5, h6, h7, h8⟩ := hg
  simp only [List.mem_cons, List.not_mem_nil, or_false, not_or] at h1 h2 h3 h4 h5 h6 h7
  simp only [isRunChar, isFracChar, Bool.or_eq_false_iff, beq_eq_false_iff_ne]
  refine ⟨?_, ?_, ?_, ?_, ?_, ?_, ?_, ?_, ?_, ?_, ?_, ?_⟩ <;> tauto

/-- Every character of a digit placeholder run is a digit glyph. -/
theorem mkRun_mem (g : PatternGlyphs) (z T : Nat) :
    ∀ c ∈ mkRun g z T, c = g.digit ∨ c = g.zeroDigit := by
  intro c hc
  simp only [mkRun, List.mem_append, List.mem_replicate] at hc
  tauto

/-- Length of a digit placeholder run. -/
theorem mkRun_length (g : PatternGlyphs) (z T : Nat) (h : z ≤ T) :
    (mkRun g z T).length = T := by
  simp [mkRun]
  omega

/-- Zero-glyph count of a digit placeholder run. -/
theorem mkRun_count_zero (g : PatternGlyphs) (hzd : g.zeroDigit ≠ g.digit)
    (z T : Nat) : (mkRun g z T).count g.zeroDigit = z := by
  simp [mkRun, List.count_append, List.count_replicate, Ne.symm hzd]

/-- Analyzing the canonically printed integer run recovers exactly the
grouping fields of the rule set. -/
theorem processIntRun_print (g : PatternGlyphs) (hg : GlyphsDistinct g)
    (r : PatternRules)
    (h0 : r.useGrouping = false → r.groupingSize = 0 ∧ r.secondaryGroupingSize = 0)
    (h1 : r.useGrouping = true → 1 ≤ r.groupingSize) :
    processIntRun g (printIntRun g r) =
      .ok (r.minIntegerDigits, r.groupingSize, r.secondaryGroupingSize,
           r.useGrouping) := by
  obtain ⟨ha, hb, hcq, hd, he, hf, hgq, hh⟩ := hg
  simp only [List.mem_cons, List.not_mem_nil, or_false, not_or] at ha hb hcq hd he hf hgq
  have hzd : g.zeroDigit ≠ g.digit := ha.1
  have hzg : g.zeroDigit ≠ g.groupingSep := ha.2.2.1
  have hdg : g.digit ≠ g.groupingSep := hb.2.1
  cases hug : r.useGrouping with
  | false =>
    obtain ⟨hg0, hs0⟩ := h0 hug
    rw [hg0, hs0, printIntRun]
    simp only [hug, if_true]
    by_cases hm : r.minIntegerDigits = 0
    · rw [if_pos hm, hm, processIntRun]
      rw [splitSeg_no_sep g.groupingSep [g.digit] (by intro c hc; simp at hc; rw [hc]; exact hdg)]
      simp [List.count_cons, Ne.symm hzd]
    · rw [if_neg hm, processIntRun]
      rw [splitSeg_no_sep g.groupingSep (List.replicate r.minIntegerDigits g.zeroDigit)
        (by intro c hc; simp [List.mem_replicate] at hc; rw [hc.2]; exact hzg)]
      simp [List.isEmpty_iff, List.count_replicate, hm]
  | true =>
    have hgsz := h1 hug
    have hmkne : ∀ z T : Nat, z ≤ T → 1 ≤ T → mkRun g z T ≠ [] := by
      intro z T hzT hT
      have := mkRun_length g z T hzT
      intro hnil
      rw [hnil] at this
      simp at this
      omega
    have hmkmem : ∀ (z T : Nat), ∀ c ∈ mkRun g z T, c ≠ g.groupingSep := by
      intro z T c hc
      rcases mkRun_mem g z T c hc with h | h <;> rw [h]
      · exact hdg
      · exact hzg
    rw [printIntRun]
    simp only [hug, Bool.true_eq_false, if_false]
    by_cases hss : r.secondaryGroupingSize = 0
    · rw [if_pos hss, hss]
      set L := (if r.minIntegerDigits ≤ r.groupingSize then [g.digit]
        else List.replicate (r.minIntegerDigits - r.groupingSize) g.zeroDigit) with hL
      have hLmem : ∀ c ∈ L, c ≠ g.groupingSep := by
        rw [hL]
        split
        · intro c hc
          simp at hc
          rw [hc]
          exact hdg
        · intro c hc
          simp [List.mem_replicate] at hc
          rw [hc.2]
          exact hzg
      have hLne : L ≠ [] := by
        rw [hL]
        split
        · simp
        · simp [List.mem_replicate]
          omega
      have hLcount : L.count g.zeroDigit =
          r.minIntegerDigits - min r.minIntegerDigits r.groupingSize := by
        rw [hL]
        split
        · simp [List.count_cons, Ne.symm hzd]
          omega
        · simp [List.count_replicate]
          omega
      have hmk := mkRun_length g (min r.minIntegerDigits r.groupingSize)
        r.groupingSize (min_le_right _ _)
      have hmkne2 : mkRun g (min r.minIntegerDigits r.groupingSize) r.groupingSize ≠ [] :=
        hmkne _ _ (min_le_right _ _) hgsz
      rw [processIntRun]
      rw [if_neg (by simp [List.isEmpty_iff, hLne])]
      rw [splitSeg_append g.groupingSep L _ hLmem,
        splitSeg_no_sep g.groupingSep _ (hmkmem _ _)]
      rw [if_neg (by simp [List.isEmpty_iff, hLne, hmkne2])]
      rw [show ([L, mkRun g (min r.minIntegerDigits r.groupingSize) r.groupingSize].reverse) =
        [mkRun g (min r.minIntegerDigits r.groupingSize) r.groupingSize, L] from by simp]
      have hc2 : List.count g.zeroDigit
          (L ++ g.groupingSep :: mkRun g (min r.minIntegerDigits r.groupingSize)
            r.groupingSize) = r.minIntegerDigits := by
        simp [List.count_append, List.count_cons, Ne.symm hzg,
          mkRun_count_zero g hzd, hLcount]
        try omega
      simp [hc2, hmk]
    · rw [if_neg hss]
      have hssz : 1 ≤ r.secondaryGroupingSize := Nat.pos_of_ne_zero hss
      set L2 := (if r.minIntegerDigits - r.groupingSize - r.secondaryGroupingSize = 0
        then [g.digit]
        else List.replicate
          (r.minIntegerDigits - r.groupingSize - r.secondaryGroupingSize)
          g.zeroDigit) with hL2
      have hLmem : ∀ c ∈ L2, c ≠ g.groupingSep := by
        rw [hL2]
        split
        · intro c hc
          simp at hc
          rw [hc]
          exact hdg
        · intro c hc
          simp [List.mem_replicate] at hc
          rw [hc.2]
          exact hzg
      have hLne : L2 ≠ [] := by
        rw [hL2]
        split
        · simp
        · simp [List.mem_replicate]
          omega
      have hLcount : L2.count g.zeroDigit =
          r.minIntegerDigits - r.groupingSize - r.secondaryGroupingSize := by
        rw [hL2]
        split
        · simp [List.count_cons, Ne.symm hzd]
          omega
        · simp [List.count_replicate]
      have hmid := mkRun_length g
        (min (r.minIntegerDigits - r.groupingSize) r.secondaryGroupingSize)
        r.secondaryGroupingSize (min_le_right _ _)
      have hmidne : mkRun g
          (min (r.minIntegerDigits - r.groupingSize) r.secondaryGroupingSize)
          r.secondaryGroupingSize ≠ [] :=
        hmkne _ _ (min_le_right _ _) hssz
      have hlast := mkRun_length g (min r.minIntegerDigits r.groupingSize)
        r.groupingSize (min_le_right _ _)
      have hlastne : mkRun g (min r.minIntegerDigits r.groupingSize)
          r.groupingSize ≠ [] := hmkne _ _ (min_le_right _ _) hgsz
      rw [processIntRun]
      rw [if_neg (by simp [List.isEmpty_iff, hLne])]
      rw [splitSeg_append g.groupingSep L2 _ hLmem,
        splitSeg_append g.groupingSep _ _ (hmkmem _ _),
        splitSeg_no_sep g.groupingSep _ (hmkmem _ _)]
      rw [if_neg (by simp [List.isEmpty_iff, hLne, hmidne, hlastne])]
      rw [show ([L2,
          mkRun g (min (r.minIntegerDigits - r.groupingSize) r.secondaryGroupingSize)
            r.secondaryGroupingSize,
          mkRun g (min r.minIntegerDigits r.groupingSize) r.groupingSize].reverse) =
        [mkRun g (min r.minIntegerDigits r.groupingSize) r.groupingSize,
          mkRun g (min (r.minIntegerDigits - r.groupingSize) r.secondaryGroupingSize)
            r.secondaryGroupingSize, L2] from by simp]
      have hc2 : List.count g.zeroDigit
          (L2 ++ g.groupingSep ::
            (mkRun g (min (r.minIntegerDigits - r.groupingSize) r.secondaryGroupingSize)
              r.secondaryGroupingSize ++
             g.groupingSep :: mkRun g (min r.minIntegerDigits r.groupingSize)
               r.groupingSize)) = r.minIntegerDigits := by
        simp [List.count_append, List.count_cons, Ne.symm hzg,
          mkRun_count_zero g hzd, hLcount]
        omega
      simp [hc2, hmid, hlast]

/-- Every character of the printed integer run is a run character. -/
theorem printIntRun_mem (g : PatternGlyphs) (r : PatternRules) :
    ∀ c ∈ printIntRun g r, isRunChar g c = true := by
  intro c hc
  have h3 : c = g.zeroDigit ∨ c = g.digit ∨ c = g.groupingSep := by
    rw [printIntRun] at hc
    split_ifs at hc <;>
      simp [List.mem_append, List.mem_replicate, List.mem_cons, mkRun] at hc <;>
      tauto
  rcases h3 with h | h | h <;> rw [h] <;> simp [isRunChar]

/-- The printed integer run starts with a digit placeholder. -/
theorem printIntRun_head (g : PatternGlyphs) (r : PatternRules) :
    ∃ c cs, printIntRun g r = c :: cs ∧ (c = g.digit ∨ c = g.zeroDigit) := by
  rw [printIntRun]
  split_ifs with hug hm hss hl hl2
  · exact ⟨g.digit, [], rfl, Or.inl rfl⟩
  · rcases Nat.exists_eq_succ_of_ne_zero hm with ⟨k, hk⟩
    rw [hk, List.replicate_succ]
    exact ⟨g.zeroDigit, _, rfl, Or.inr rfl⟩
  · exact ⟨g.digit, _, rfl, Or.inl rfl⟩
  · have hne : r.minIntegerDigits - r.groupingSize ≠ 0 := by omega
    rcases Nat.exists_eq_succ_of_ne_zero hne with ⟨k, hk⟩
    rw [hk, List.replicate_succ, List.cons_append]
    exact ⟨g.zeroDigit, _, rfl, Or.inr rfl⟩
  · exact ⟨g.digit, _, rfl, Or.inl rfl⟩
  · have hne : r.minIntegerDigits - r.groupingSize - r.secondaryGroupingSize ≠ 0 := by omega
    rcases Nat.exists_eq_succ_of_ne_zero hne with ⟨k, hk⟩
    rw [hk, List.replicate_succ, List.cons_append]
    exact ⟨g.zeroDigit, _, rfl, Or.inr rfl⟩

/-- A printed affix is empty or starts with the quote or a marker
glyph. -/
theorem printAffix_shape (g : PatternGlyphs) (ts : List AffixToken) :
    printAffixAux g false ts = [] ∨
    ∃ c cs, printAffixAux g false ts = c :: cs ∧
      (c = 39 ∨ c = g.percent ∨ c = g.perMill ∨ c = g.currency) := by
  cases ts with
  | nil => exact Or.inl rfl
  | cons t ts =>
    right
    cases t with
    | percent => exact ⟨g.percent, _, rfl, Or.inr (Or.inl rfl)⟩
    | perMille => exact ⟨g.perMill, _, rfl, Or.inr (Or.inr (Or.inl rfl))⟩
    | currency => exact ⟨g.currency, _, rfl, Or.inr (Or.inr (Or.inr rfl))⟩
    | literal c =>
      by_cases hc : c = 39
      · subst hc
        exact ⟨39, 39 :: printAffixAux g false ts, by simp [printAffixAux], Or.inl rfl⟩
      · exact ⟨39, c :: printAffixAux g true ts, by simp [printAffixAux, hc], Or.inl rfl⟩

/-- Characters that can follow the digit part: the printed suffix followed
by the trailing text is empty or starts with a character that belongs
neither to the integer run nor to the fraction run and is not the decimal
separator. -/
theorem affixRest_head (g : PatternGlyphs) (hg : GlyphsDistinct g)
    (suf : List AffixToken) (rest : List Nat)
    (hrest : rest = [] ∨ ∃ cs, rest = g.patternSep :: cs) :
    printAffixAux g false suf ++ rest = [] ∨
    ∃ c cs, printAffixAux g false suf ++ rest = c :: cs ∧
      isRunChar g c = false ∧ isFracChar g c = false ∧ c ≠ g.decimalSep := by
  obtain ⟨hrd, hrp, hr39, hrper, hrmil, hrcur, hfp, hf39, hfper, hfmil, hfcur, hfd⟩ :=
    run_char_facts g hg
  obtain ⟨ha, hb, hcq, hd, he, hf, hgq, hh⟩ := hg
  simp only [List.mem_cons, List.not_mem_nil, or_false, not_or] at ha hb hcq hd he hf hgq
  rcases printAffix_shape g suf with hsh | ⟨c, cs, hsh, hc⟩
  · rw [hsh, List.nil_append]
    rcases hrest with rfl | ⟨cs, rfl⟩
    · exact Or.inl rfl
    · refine Or.inr ⟨g.patternSep, cs, rfl, hrp, hfp, ?_⟩
      intro hx
      exact hcq.2.1 hx.symm
  · rw [hsh, List.cons_append]
    refine Or.inr ⟨c, cs ++ rest, rfl, ?_, ?_, ?_⟩
    · rcases hc with h | h | h | h <;> rw [h] <;> assumption
    · rcases hc with h | h | h | h <;> rw [h] <;> assumption
    · rcases hc with h | h | h | h <;> rw [h] <;> intro hx
      · exact hcq.2.2.2.2.2 hx.symm
      · exact hcq.2.2.1 hx.symm
      · exact hcq.2.2.2.1 hx.symm
      · exact hcq.2.2.2.2.1 hx.symm

/-- Scanning the printed fraction part recovers the fraction digit
bounds. -/
theorem scanFraction_print (g : PatternGlyphs) (hg : GlyphsDistinct g)
    (r : PatternRules) (h2 : r.minFractionDigits ≤ r.maxFractionDigits)
    (X : List Nat)
    (hX : X = [] ∨ ∃ c cs, X = c :: cs ∧ isFracChar g c = false ∧ c ≠ g.decimalSep) :
    scanFraction g (printFracRun g r ++ X) =
      (r.minFractionDigits, r.maxFractionDigits, X) := by
  obtain ⟨ha, hb, hcq, hd, he, hf, hgq, hh⟩ := hg
  simp only [List.mem_cons, List.not_mem_nil, or_false, not_or] at ha hb hcq hd he hf hgq
  have hzd : g.zeroDigit ≠ g.digit := ha.1
  by_cases hmf : r.maxFractionDigits = 0
  · have hmn : r.minFractionDigits = 0 := by omega
    rw [printFracRun, if_pos hmf, List.nil_append, hmf, hmn]
    rcases hX with rfl | ⟨c, cs, rfl, hfc, hdc⟩
    · rfl
    · rw [scanFraction, if_neg hdc]
  · rw [printFracRun, if_neg hmf, List.cons_append, scanFraction, if_pos rfl]
    have hmem : ∀ c ∈ (List.replicate r.minFractionDigits g.zeroDigit ++
        List.replicate (r.maxFractionDigits - r.minFractionDigits) g.digit),
        isFracChar g c = true := by
      intro c hc
      simp only [List.mem_append, List.mem_replicate] at hc
      rcases hc with ⟨_, h⟩ | ⟨_, h⟩ <;> rw [h] <;> simp [isFracChar]
    have hXsh : X = [] ∨ ∃ c cs, X = c :: cs ∧ isFracChar g c = false := by
      rcases hX with rfl | ⟨c, cs, rfl, hfc, _⟩
      · exact Or.inl rfl
      · exact Or.inr ⟨c, cs, rfl, hfc⟩
    have htd := takeWhile_dropWhile_append (isFracChar g) _ X hmem hXsh
    rw [List.append_assoc] at htd
    rw [List.append_assoc, htd.1, htd.2]
    have hcnt : List.count g.zeroDigit
        (List.replicate r.minFractionDigits g.zeroDigit ++
          List.replicate (r.maxFractionDigits - r.minFractionDigits) g.digit) =
        r.minFractionDigits := by
      simp [List.count_append, List.count_replicate, Ne.symm hzd]
    have hlen : (List.replicate r.minFractionDigits g.zeroDigit ++
        List.replicate (r.maxFractionDigits - r.minFractionDigits) g.digit).length =
        r.maxFractionDigits := by
      simp
      omega
    rw [hcnt, hlen]

/-- The text after the printed integer run is empty or starts with a
non-run character. -/
theorem fracAffixRest_head (g : PatternGlyphs) (hg : GlyphsDistinct g)
    (r : PatternRules) (suf : List AffixToken) (rest : List Nat)
    (hrest : rest = [] ∨ ∃ cs, rest = g.patternSep :: cs) :
    printFracRun g r ++ (printAffixAux g false suf ++ rest) = [] ∨
    ∃ c cs, printFracRun g r ++ (printAffixAux g false suf ++ rest) = c :: cs ∧
      isRunChar g c = false := by
  obtain ⟨hrd, hrp, hr39, hrper, hrmil, hrcur, _, _, _, _, _, _⟩ := run_char_facts g hg
  by_cases hmf : r.maxFractionDigits = 0
  · rw [printFracRun, if_pos hmf, List.nil_append]
    rcases affixRest_head g hg suf rest hrest with h | ⟨c, cs, hsh, hrun, _, _⟩
    · exact Or.inl h
    · exact Or.inr ⟨c, cs, hsh, hrun⟩
  · rw [printFracRun, if_neg hmf, List.cons_append]
    exact Or.inr ⟨g.decimalSep, _, rfl, hrd⟩

/-- Parsing the canonical print of a subpattern recovers its affixes and
digit statistics exactly. -/
theorem parseSubpattern_print (g : PatternGlyphs) (hg : GlyphsDistinct g)
    (r : PatternRules)
    (h0 : r.useGrouping = false → r.groupingSize = 0 ∧ r.secondaryGroupingSize = 0)
    (h1 : r.useGrouping = true → 1 ≤ r.groupingSize)
    (h2 : r.minFractionDigits ≤ r.maxFractionDigits)
    (pre suf : List AffixToken) (rest : List Nat)
    (hrest : rest = [] ∨ ∃ cs, rest = g.patternSep :: cs) :
    parseSubpattern g (printSubpattern g r pre suf ++ rest) =
      .ok (⟨pre, suf, r.minIntegerDigits, r.groupingSize,
            r.secondaryGroupingSize, r.useGrouping, r.minFractionDigits,
            r.maxFractionDigits⟩, rest) := by
  have hkey : printSubpattern g r pre suf ++ rest =
      printAffixAux g false pre ++
        (printIntRun g r ++ (printFracRun g r ++ (printAffixAux g false suf ++ rest))) := by
    simp [printSubpattern, List.append_assoc]
  obtain ⟨cI, csI, hI, hcI⟩ := printIntRun_head g r
  have hstopI : isAffixStopChar g cI = true := by
    rcases hcI with h | h <;> rw [h] <;> simp [isAffixStopChar]
  have hscan1 := scanAffix_print g hg pre false
    (printIntRun g r ++ (printFracRun g r ++ (printAffixAux g false suf ++ rest)))
    (Or.inr ⟨cI, csI ++ (printFracRun g r ++ (printAffixAux g false suf ++ rest)),
      by rw [hI, List.cons_append], hstopI⟩)
  have htd := takeWhile_dropWhile_append (isRunChar g) (printIntRun g r)
    (printFracRun g r ++ (printAffixAux g false suf ++ rest))
    (printIntRun_mem g r) (fracAffixRest_head g hg r suf rest hrest)
  have hstop2 : rest = [] ∨ ∃ c cs, rest = c :: cs ∧ isAffixStopChar g c = true := by
    rcases hrest with rfl | ⟨cs, rfl⟩
    · exact Or.inl rfl
    · exact Or.inr ⟨g.patternSep, cs, rfl, by simp [isAffixStopChar]⟩
  have hX : printAffixAux g false suf ++ rest = [] ∨
      ∃ c cs, printAffixAux g false suf ++ rest = c :: cs ∧
        isFracChar g c = false ∧ c ≠ g.decimalSep := by
    rcases affixRest_head g hg suf rest hrest with h | ⟨c, cs, hsh, _, hfr, hdc⟩
    · exact Or.inl h
    · exact Or.inr ⟨c, cs, hsh, hfr, hdc⟩
  have hP := processIntRun_print g hg r h0 h1
  have hS := scanFraction_print g hg r h2 _ hX
  have hA := scanAffix_print g hg suf false rest hstop2
  rw [hkey, parseSubpattern]
  simp only [hscan1]
  simp only [htd.1, htd.2]
  simp only [hP, hS, hA]

/-- Grouping facts recovered from a successful integer-run analysis. -/
theorem processIntRun_ok_inv (g : PatternGlyphs) (run : List Nat)
    (z gsz ssz : Nat) (ug : Bool)
    (h : processIntRun g run = .ok (z, gsz, ssz, ug)) :
    (ug = false → gsz = 0 ∧ ssz = 0) ∧ (ug = true → 1 ≤ gsz) := by
  rw [processIntRun] at h
  by_cases he : run.isEmpty
  · rw [if_pos he] at h
    exact absurd h (by simp)
  · rw [if_neg he] at h
    by_cases ha : (splitSeg g.groupingSep run).any (·.isEmpty)
    · rw [if_pos ha] at h
      exact absurd h (by simp)
    · rw [if_neg ha] at h
      rcases hrev : (splitSeg g.groupingSep run).reverse with _ | ⟨lastSeg, rest⟩
      · rw [hrev] at h
        exact absurd h (by simp)
      · rcases rest with _ | ⟨secondSeg, others⟩
        · rw [hrev] at h
          simp only [Except.ok.injEq, Prod.mk.injEq] at h
          obtain ⟨_, h1, h2, h3⟩ := h
          constructor
          · intro _
            exact ⟨h1.symm, h2.symm⟩
          · intro hx
            rw [← h3] at hx
            simp at hx
        · rw [hrev] at h
          simp only [Except.ok.injEq, Prod.mk.injEq] at h
          obtain ⟨_, h1, h2, h3⟩ := h
          constructor
          · intro hx
            rw [← h3] at hx
            simp at hx
          · intro _
            rw [← h1]
            have hmem : lastSeg ∈ splitSeg g.groupingSep run := by
              have : lastSeg ∈ (splitSeg g.groupingSep run).reverse := by
                rw [hrev]
                simp
              simpa using this
            have hne2 : lastSeg.isEmpty = false := by
              rcases hx : lastSeg.isEmpty with _ | _
              · rfl
              · exact absurd (List.any_eq_true.mpr ⟨lastSeg, hmem, hx⟩) (by simp [ha])
            rcases lastSeg with _ | ⟨x, xs⟩
            · simp at hne2
            · simp

/-- The fraction scan never reports more minimum than maximum digits. -/
theorem scanFraction_le (g : PatternGlyphs) (l : List Nat) :
    (scanFraction g l).1 ≤ (scanFraction g l).2.1 := by
  cases l with
  | nil => simp [scanFraction]
  | cons c cs =>
    rw [scanFraction]
    by_cases hc : c = g.decimalSep
    · rw [if_pos hc]
      exact List.count_le_length _ _
    · rw [if_neg hc]

/-- Structural facts recovered from a successful subpattern parse. -/
theorem parseSubpattern_ok_inv (g : PatternGlyphs) (t : List Nat)
    (p : SubpatInfo) (rest : List Nat)
    (h : parseSubpattern g t = .ok (p, rest)) :
    p.minFrac ≤ p.maxFrac ∧ (p.useG = false → p.gsz = 0 ∧ p.ssz = 0) ∧
      (p.useG = true → 1 ≤ p.gsz) := by
  rw [parseSubpattern] at h
  rcases h1 : scanAffix g false t with e | ⟨pre, r1⟩
  · simp [h1] at h
  · simp only [h1] at h
    rcases h2 : processIntRun g (List.takeWhile (isRunChar g) r1) with e | ⟨z, gsz, ssz, ug⟩
    · simp [h2] at h
    · simp only [h2] at h
      rcases h3 : scanFraction g (List.dropWhile (isRunChar g) r1) with ⟨fz, fl, r3⟩
      simp only [h3] at h
      rcases h4 : scanAffix g false r3 with e | ⟨suf, r4⟩
      · simp [h4] at h
      · simp only [h4] at h
        simp only [Except.ok.injEq, Prod.mk.injEq] at h
        obtain ⟨hp, _⟩ := h
        rw [← hp]
        have hinv := processIntRun_ok_inv g _ _ _ _ _ h2
        have hle := scanFraction_le g (List.dropWhile (isRunChar g) r1)
        rw [h3] at hle
        exact ⟨hle, hinv.1, hinv.2⟩

/-- Every rule set produced by `compile` is well-formed. -/
theorem compile_wf (g : PatternGlyphs) (p : List Nat) (r : PatternRules)
    (h : compile g p = .ok r) : WFRules r := by
  rw [compile] at h
  rcases h1 : parseSubpattern g p with e | ⟨p1, rest⟩
  · simp [h1] at h
  · simp only [h1] at h
    have hinv := parseSubpattern_ok_inv g p p1 rest h1
    rcases rest with _ | ⟨c, rest2⟩
    · simp only [Except.ok.injEq] at h
      rw [← h]
      exact ⟨rfl, hinv.1, hinv.2.1, hinv.2.2, rfl, rfl⟩
    · by_cases hc : c = g.patternSep
      · simp only [if_pos hc] at h
        rcases h2 : parseSubpattern g rest2 with e | ⟨p2, rest3⟩
        · simp [h2] at h
        · simp only [h2] at h
          by_cases h3 : rest3.isEmpty
          · simp only [if_pos h3, Except.ok.injEq] at h
            rw [← h]
            exact ⟨rfl, hinv.1, hinv.2.1, hinv.2.2, rfl, rfl⟩
          · simp only [if_neg h3] at h
            simp at h
      · simp only [if_neg hc] at h
        simp at h

/-- Decompiling a well-formed rule set and compiling the result gives the
rule set back. -/
theorem compile_decompile_print (g : PatternGlyphs) (hg : GlyphsDistinct g)
    (r : PatternRules) (hr : WFRules r) :
    compile g (decompile g r) = .ok r := by
  obtain ⟨hmax, hfrac, hg0, hg1, hmult, hinc⟩ := hr
  rw [decompile]
  by_cases hneg : r.negPre = .literal 45 :: r.posPre ∧ r.negSuf = r.posSuf
  · rw [if_pos hneg]
    have hp := parseSubpattern_print g hg r hg0 hg1 hfrac r.posPre r.posSuf []
      (Or.inl rfl)
    rw [List.append_nil] at hp
    rw [compile]
    simp only [hp]
    obtain ⟨minI, maxI, minF, maxF, gsz, ssz, ug, pp, ps, np, ns, mult, inc⟩ := r
    simp only at hmax hmult hinc hneg ⊢
    rw [hmax, hmult, hinc, hneg.1, hneg.2]
  · rw [if_neg hneg]
    have hp := parseSubpattern_print g hg r hg0 hg1 hfrac r.posPre r.posSuf
      (g.patternSep :: printSubpattern g r r.negPre r.negSuf)
      (Or.inr ⟨printSubpattern g r r.negPre r.negSuf, rfl⟩)
    have hp2 := parseSubpattern_print g hg r hg0 hg1 hfrac r.negPre r.negSuf []
      (Or.inl rfl)
    rw [List.append_nil] at hp2
    rw [compile]
    simp only [hp]
    simp only [eq_self_iff_true, if_true]
    simp only [hp2, List.isEmpty_nil, if_true]
    obtain ⟨minI, maxI, minF, maxF, gsz, ssz, ug, pp, ps, np, ns, mult, inc⟩ := r
    simp only at hmax hmult hinc ⊢
    rw [hmax, hmult, hinc]

/-- Claim C1: applying a pattern and re-applying the pattern text produced
by `toPattern` leaves the rule set identical — for every glyph set with
distinct special glyphs (covering both the localized and the canonical
tokenization) and every pattern that compiles, the decompiled text
compiles back to the very same rules. -/
theorem c1_compile_decompile_roundtrip (g : PatternGlyphs) (p : List Nat)
    (r : PatternRules) (hg : GlyphsDistinct g) (hc : compile g p = .ok r) :
    compile g (decompile g r) = .ok r :=
  compile_decompile_print g hg r (compile_wf g p r hc)

/-- Witness for C1 on the pattern `"#,##0.00;(#)"`-style input
`"#,##0.00"` with the canonical glyphs. -/
theorem c1_compile_decompile_roundtrip_instance :
    GlyphsDistinct canonicalGlyphs ∧
    compile canonicalGlyphs [35, 44, 35, 35, 48, 46, 48, 48] =
      .ok { minIntegerDigits := 1, maxIntegerDigits := none
            minFractionDigits := 2, maxFractionDigits := 2
            groupingSize := 3, secondaryGroupingSize := 0, useGrouping := true
            posPre := [], posSuf := [], negPre := [.literal 45], negSuf := []
            multiplier := 1, roundingIncrement := ⟨0, 0⟩ } ∧
    compile canonicalGlyphs (decompile canonicalGlyphs
      { minIntegerDigits := 1, maxIntegerDigits := none
        minFractionDigits := 2, maxFractionDigits := 2
        groupingSize := 3, secondaryGroupingSize := 0, useGrouping := true
        posPre := [], posSuf := [], negPre := [.literal 45], negSuf := []
        multiplier := 1, roundingIncrement := ⟨0, 0⟩ }) =
      .ok { minIntegerDigits := 1, maxIntegerDigits := none
            minFractionDigits := 2, maxFractionDigits := 2
            groupingSize := 3, secondaryGroupingSize := 0, useGrouping := true
            posPre := [], posSuf := [], negPre := [.literal 45], negSuf := []
            multiplier := 1, roundingIncrement := ⟨0, 0⟩ } :=
  ⟨by decide, by decide,
    c1_compile_decompile_roundtrip canonicalGlyphs [35, 44, 35, 35, 48, 46, 48, 48]
      _ (by decide) (by decide)⟩
